import Mathlib

/-! # eksctl template builder and goformation resource registry

A shallow embedding of

* `pkg/cfn/builder/api.go` (the resource-set builder: parameters, names, the automatic
  `Name` tag, resource registration), and
* `vendor/github.com/awslabs/goformation/cloudformation/aws-emr-step.go` and
  `aws-logs-metricfilter.go` (the `{Type, Properties}` envelope codec of two resource kinds
  and the registry queries over a template).

Conventions of the embedding.

* A JSON document (`[]byte` in the Go code) is represented by its parse tree `Json`; the
  members of an object are kept in document order.
* A Go map with string keys that is only read is represented by the list of its entries in
  increasing key order, which is the order `encoding/json` emits them in. The three mappings
  of a template are association lists with unique keys (`AList`).
* A Go slice is `none` when it is nil and `some xs` otherwise.
* Pointers are addresses into a heap; a call that mutates through a pointer returns the new
  heap.
* A call that panics yields `Outcome.panic`.
* The property types `AWSEMRStep_HadoopJarStepConfig` and
  `AWSLogsMetricFilter_MetricTransformation` and the JSON codecs of `Value` and of these two
  types are not in the sources. The two types are type parameters `H` and `M`; the codecs are
  parameters of type `FieldCodec`.
-/

namespace Eksctl

/-! ## JSON documents and dynamic values -/

/-- A JSON document, as a tree. Object members are in document order. -/
inductive Json where
  | null
  | bool (b : Bool)
  | num (n : Int)
  | str (s : String)
  | arr (xs : List Json)
  | obj (kvs : List (String × Json))

/-- A Go value of static type `interface{}` as it occurs inside a `map[string]interface{}`:
the shapes `encoding/json` produces when decoding into `interface{}`, and `other` for any
other Go value, which carries what `json.Marshal` makes of it (`none`: the value cannot be
encoded, as for a channel or a function). -/
inductive Dyn where
  | nil
  | bool (b : Bool)
  | num (n : Int)
  | str (s : String)
  | arr (xs : List Dyn)
  | map (kvs : List (String × Dyn))
  | other (enc : Option Json)

/-- Result of a call that may panic instead of returning. -/
inductive Outcome (α : Type) where
  | ret (a : α)
  | panic (msg : String)

/-- A Go slice: `none` is the nil slice, `some xs` a non-nil slice with elements `xs`. -/
abbrev GoSlice (α : Type) := Option (List α)

/-- The elements of a slice; a nil slice has none. -/
def GoSlice.toList {α : Type} : GoSlice α → List α
  | none => []
  | some xs => xs

/-- Go's `append(s, x)` (also `reflect.Append`): the result is never nil. -/
def GoSlice.append {α : Type} (s : GoSlice α) (x : α) : GoSlice α :=
  some (GoSlice.toList s ++ [x])

/-! ## Values, tags and templates (package `gfn`) -/

/-- Modelled from the spec: the `Value` type of the goformation package is not in the
sources. Spec section 3: a value is a literal scalar, a reference to a logical name, or a
deferred string substitution. -/
inductive Value where
  | literal (s : String)
  | reference (logicalName : String)
  | substitution (templateString : String)
  deriving DecidableEq, Repr

/-- Modelled from the spec: `gfn.NewString`, missing from the sources, builds a literal. -/
def NewString (s : String) : Value := Value.literal s

/-- Modelled from the spec: `gfn.MakeRef`, missing from the sources, builds `Reference(name)`,
rendered as `{"Ref": name}`. -/
def MakeRef (name : String) : Value := Value.reference name

/-- Modelled from the spec: `gfn.MakeFnSubString`, missing from the sources, builds
`Substitution(s)`, rendered as `{"Fn::Sub": s}`. -/
def MakeFnSubString (s : String) : Value := Value.substitution s

/-- Modelled from the spec: the constant `gfn.StackName`, missing from the sources, is the
stack-name pseudo-variable; the comment of `makeAutoNameTag` and spec section 8 spell it
`AWS::StackName`. -/
def StackName : String := "AWS::StackName"

/-- Modelled from the spec: `gfn.Tag`, missing from the sources, is a `{Key, Value}` pair of
values. -/
structure Tag where
  Key : Value
  Value : Value
  deriving DecidableEq, Repr

/-- `AWSEMRStep` (aws-emr-step.go:11-32). A nil pointer field is `none`. `H` stands for
`AWSEMRStep_HadoopJarStepConfig`. -/
structure AWSEMRStep (H : Type) where
  ActionOnFailure : Option Value
  HadoopJarStep : Option H
  JobFlowId : Option Value
  Name : Option Value
  deriving DecidableEq, Repr

/-- `AWSLogsMetricFilter` (aws-logs-metricfilter.go:11-27). `M` stands for
`AWSLogsMetricFilter_MetricTransformation`. -/
structure AWSLogsMetricFilter (M : Type) where
  FilterPattern : Option Value
  LogGroupName : Option Value
  MetricTransformations : GoSlice M
  deriving DecidableEq, Repr

/-- The zero value `AWSEMRStep{}`. -/
def AWSEMRStep.zero {H : Type} : AWSEMRStep H :=
  { ActionOnFailure := none, HadoopJarStep := none, JobFlowId := none, Name := none }

/-- The zero value `AWSLogsMetricFilter{}`. -/
def AWSLogsMetricFilter.zero {M : Type} : AWSLogsMetricFilter M :=
  { FilterPattern := none, LogGroupName := none, MetricTransformations := none }

/-- The value of a struct field as reflection sees it: of type `[]gfn.Tag`, or of any other
type (with its content). -/
inductive FieldVal where
  | tags (ts : GoSlice Tag)
  | other (v : Dyn)

/-- A field of a struct described reflectively. -/
structure Field where
  name : String
  val : FieldVal

/-- A member of a struct that has embedded fields: a named field, or an embedded field, whose
name is the name of its type and which holds a struct or a pointer to a struct. `members` are
the members of that struct; for a nil embedded pointer they describe the struct type the
pointer is declared with (its fields, at their zero values). The struct behind a non-nil
embedded pointer is kept inside the member: other pointers to it are not followed. An
embedded field of a type that is not a struct has nothing to promote and is a named field. -/
inductive Member where
  | field (f : Field)
  | embedded (name : String) (members : List Member)
  | embeddedPtr (name : String) (isNil : Bool) (members : List Member)

/-- What a pointer handed to the builder points to: one of the two kinds of the sources,
another struct kind without embedded fields (given by its fields), a struct kind with embedded
fields (given by its members), or something that is not a struct. -/
inductive Pointee (H M : Type) where
  | emrStep (x : AWSEMRStep H)
  | logsMetricFilter (x : AWSLogsMetricFilter M)
  | struct (fields : List Field)
  | embedding (members : List Member)
  | nonStruct

/-- The heap: what each address holds. -/
abbrev Heap (H M : Type) := Nat → Pointee H M

/-- A Go value of static type `interface{}` as held in `Template.Resources` or passed to
`newResource`. -/
inductive Resource (H M : Type) where
  /-- The nil interface. -/
  | nil
  /-- An `AWSEMRStep` held by value. -/
  | emrStep (x : AWSEMRStep H)
  /-- An `AWSLogsMetricFilter` held by value. -/
  | logsMetricFilter (x : AWSLogsMetricFilter M)
  /-- A struct of another kind held by value. -/
  | structVal (fields : List Field)
  /-- A non-nil pointer. -/
  | ptr (a : Nat)
  /-- A nil pointer of some pointer type. -/
  | nilPtr
  /-- A `map[string]interface{}`, entries in increasing key order. -/
  | untyped (m : List (String × Dyn))

/-- Modelled from the spec: an output entry of a template (section 3: a value plus an
optional description); the type is not in the sources. -/
structure Output where
  Description : Option String
  Value : Value

/-- Modelled from the spec: `gfn.Template`, missing from the sources, with its three mappings
(section 3). A parameter entry is the `map[string]string` that `newParameter` stores. -/
structure Template (H M : Type) where
  Parameters : AList (fun _ : String => AList (fun _ : String => String))
  Resources : AList (fun _ : String => Resource H M)
  Outputs : AList (fun _ : String => Output)

/-- Modelled from the spec: `gfn.NewTemplate`, missing from the sources, yields the empty
template (section 3: a template is created empty). -/
def NewTemplate {H M : Type} : Template H M :=
  { Parameters := ∅, Resources := ∅, Outputs := ∅ }

/-! ## The builder (`pkg/cfn/builder/api.go`) -/

/-- `resourceSet` (api.go:30-34). -/
structure resourceSet (H M : Type) where
  template : Template H M
  outputs : List String
  withIAM : Bool

/-- `newResourceSet` (api.go:36-40). -/
def newResourceSet {H M : Type} : resourceSet H M :=
  { template := NewTemplate, outputs := [], withIAM := false }

/-- `makeName` (api.go:43-45): `fmt.Sprintf("${%s}-%s", gfn.StackName, suffix)` wrapped in
`Fn::Sub`. -/
def makeName (suffix : String) : Value :=
  MakeFnSubString ("$\x7b" ++ StackName ++ "\x7d-" ++ suffix)

/-- `resourceSet.newParameter` (api.go:61-68). Returns the updated resource set and the
reference. -/
def resourceSet.newParameter {H M : Type} (r : resourceSet H M)
    (name valueType defaultValue : String) : resourceSet H M × Value :=
  let p : AList (fun _ : String => String) := AList.insert "Type" valueType ∅
  let p := if defaultValue ≠ "" then AList.insert "Default" defaultValue p else p
  ({ r with template :=
      { r.template with Parameters := AList.insert name p r.template.Parameters } },
   MakeRef name)

/-- `resourceSet.newStringParameter` (api.go:70-72). -/
def resourceSet.newStringParameter {H M : Type} (r : resourceSet H M)
    (name defaultValue : String) : resourceSet H M × Value :=
  r.newParameter name "String" defaultValue

/-- `resourceSet.newNumberParameter` (api.go:74-76). -/
def resourceSet.newNumberParameter {H M : Type} (r : resourceSet H M)
    (name defaultValue : String) : resourceSet H M × Value :=
  r.newParameter name "Number" defaultValue

/-- `makeAutoNameTag` (api.go:80-85). -/
def makeAutoNameTag (suffix : String) : Tag :=
  { Key := NewString "Name",
    Value := MakeFnSubString ("$\x7b" ++ StackName ++ "\x7d/" ++ suffix) }

/-- `reflect.Value.FieldByName` on a struct without embedded fields: the field of that name,
if any. -/
def FieldByName (fields : List Field) (name : String) : Option Field :=
  fields.find? (fun f => decide (f.name = name))

/-- `reflect.Value.Set` on the field called `name`. -/
def setField (name : String) (v : FieldVal) : List Field → List Field
  | [] => []
  | f :: fs => if f.name = name then { f with val := v } :: fs else f :: setField name v fs

/-- The name of a member: a field's name, or the type name of an embedded field. -/
def Member.name : Member → String
  | .field f => f.name
  | .embedded n _ => n
  | .embeddedPtr n _ _ => n

/-- The members one level below a member: those of the struct it embeds, none for a named
field. -/
def Member.children : Member → List Member
  | .field _ => []
  | .embedded _ ms => ms
  | .embeddedPtr _ _ ms => ms

mutual
/-- The number of levels of embedding below a member. -/
def Member.height : Member → Nat
  | .field _ => 0
  | .embedded _ ms => membersHeight ms + 1
  | .embeddedPtr _ _ ms => membersHeight ms + 1
/-- The number of levels of embedding below a list of members. -/
def membersHeight : List Member → Nat
  | [] => 0
  | m :: ms => max (Member.height m) (membersHeight ms)
end

/-- How many fields called `name` there are at depth `d` of a struct with these members
(depth 0: the struct's own fields; depth `d + 1`: depth `d` of the structs it embeds). -/
def countAtDepth (name : String) : Nat → List Member → Nat
  | 0, ms => (ms.filter (fun m => decide (m.name = name))).length
  | d + 1, ms => (ms.map (fun m => countAtDepth name d m.children)).sum

/-- The shallowest depth, from `d` on and within `fuel` levels, at which there is a field
called `name`. -/
def shallowestDepth (name : String) (ms : List Member) : Nat → Nat → Option Nat
  | 0, _ => none
  | fuel + 1, d =>
    if countAtDepth name d ms > 0 then some d else shallowestDepth name ms fuel (d + 1)

/-- What `reflect.Value.FieldByIndex` reaches when it walks to a promoted field. -/
inductive Promoted where
  /-- A named field. -/
  | field (f : Field)
  /-- An embedded field itself; its type is a struct or a pointer, not a `[]Tag`. -/
  | embeddedField
  /-- Nothing: the walk goes through a nil embedded pointer and panics. -/
  | nilPointer

/-- The walk of `reflect.Value.FieldByIndex` to the field called `name` at depth `d`. -/
def reachAtDepth (name : String) : Nat → List Member → Option Promoted
  | 0, ms =>
    match ms.find? (fun m => decide (m.name = name)) with
    | some (.field f) => some (.field f)
    | some (.embedded _ _) => some .embeddedField
    | some (.embeddedPtr _ _ _) => some .embeddedField
    | none => none
  | d + 1, ms =>
    ms.findSome? (fun m =>
      match m with
      | .field _ => none
      | .embedded _ sub => reachAtDepth name d sub
      | .embeddedPtr _ isNil sub =>
        match reachAtDepth name d sub with
        | some r => if isNil then some .nilPointer else some r
        | none => none)

/-- `reflect.Value.Set` on the named field called `name` at depth `d`. -/
def setAtDepth (name : String) (v : FieldVal) : Nat → List Member → List Member
  | 0, ms =>
    ms.map (fun m =>
      match m with
      | .field f => if f.name = name then .field { f with val := v } else .field f
      | .embedded n sub => .embedded n sub
      | .embeddedPtr n isNil sub => .embeddedPtr n isNil sub)
  | d + 1, ms =>
    ms.map (fun m =>
      match m with
      | .field f => .field f
      | .embedded n sub => .embedded n (setAtDepth name v d sub)
      | .embeddedPtr n isNil sub => .embeddedPtr n isNil (setAtDepth name v d sub))

/-- `reflect.Value.FieldByName` on a struct with embedded fields. The field is looked up in
the struct type by Go's rule for promoted fields: it is the one at the shallowest depth
where the name occurs, provided it occurs there exactly once (otherwise there is no such
field); the value is then reached by `FieldByIndex`, which panics when the way to it leads
through a nil embedded pointer. The result is what was reached and its depth, `none` when
there is no such field. -/
def FieldByNamePromoted (members : List Member) (name : String) :
    Outcome (Option (Promoted × Nat)) :=
  match shallowestDepth name members (membersHeight members + 1) 0 with
  | none => .ret none
  | some d =>
    if countAtDepth name d members = 1 then
      match reachAtDepth name d members with
      | some .nilPointer =>
        .panic "reflect: indirection through nil pointer to embedded struct"
      | some r => .ret (some (r, d))
      | none => .ret none
    else .ret none

/-- The effect of lines 93-97 of `maybeSetNameTag` on a struct with embedded fields, once
`FieldByName` has returned `found`: a `[]Tag` field gets the tag appended, anything else is
left alone. -/
def setPromotedNameTag (name : String) (members : List Member) :
    Option (Promoted × Nat) → Option (List Member)
  | some (.field f, d) =>
    match f.val with
    | .tags ts =>
      some (setAtDepth "Tags" (.tags (GoSlice.append ts (makeAutoNameTag name))) d members)
    | .other _ => none
  | _ => none

/-- `maybeSetNameTag` (api.go:89-100). `reflect.ValueOf(resource).Elem()` panics unless
`resource` is a pointer (for the nil interface `ValueOf` gives the zero `reflect.Value`,
whose `Elem` panics too); on a nil pointer it gives the zero `reflect.Value`, whose kind is
not `Struct`. `e.FieldByName("Tags")` panics when `Tags` is promoted through a nil embedded
pointer. The struct reached through a pointer is addressable and `Tags` is an exported name,
so `f.CanSet()` holds whenever `f.IsValid()` does. The two kinds of the sources have no
field called `Tags` and no embedded field. -/
def maybeSetNameTag {H M : Type} (heap : Heap H M) (name : String)
    (resource : Resource H M) : Outcome (Heap H M) :=
  match resource with
  | .ptr a =>
    match heap a with
    | .struct fields =>
      match FieldByName fields "Tags" with
      | some f =>
        match f.val with
        | .tags ts =>
          .ret (Function.update heap a
            (.struct (setField "Tags" (.tags (GoSlice.append ts (makeAutoNameTag name))) fields)))
        | .other _ => .ret heap
      | none => .ret heap
    | .embedding members =>
      match FieldByNamePromoted members "Tags" with
      | .panic msg => .panic msg
      | .ret found =>
        match setPromotedNameTag name members found with
        | some members' => .ret (Function.update heap a (.embedding members'))
        | none => .ret heap
    | .emrStep _ => .ret heap
    | .logsMetricFilter _ => .ret heap
    | .nonStruct => .ret heap
  | .nilPtr => .ret heap
  | .nil => .panic "reflect: call of reflect.Value.Elem on zero Value"
  | .emrStep _ => .panic "reflect: call of reflect.Value.Elem on struct Value"
  | .logsMetricFilter _ => .panic "reflect: call of reflect.Value.Elem on struct Value"
  | .structVal _ => .panic "reflect: call of reflect.Value.Elem on struct Value"
  | .untyped _ => .panic "reflect: call of reflect.Value.Elem on map Value"

/-- `resourceSet.newResource` (api.go:103-107). Returns the new heap, the updated resource
set and the reference; when `maybeSetNameTag` panics nothing is stored. -/
def resourceSet.newResource {H M : Type} (r : resourceSet H M) (heap : Heap H M)
    (name : String) (resource : Resource H M) :
    Outcome (Heap H M × resourceSet H M × Value) :=
  match maybeSetNameTag heap name resource with
  | .panic msg => .panic msg
  | .ret heap' =>
    .ret (heap',
      { r with template :=
          { r.template with Resources := AList.insert name resource r.template.Resources } },
      MakeRef name)

/-! ## `encoding/json` as used by the two kinds -/

/-- JSON codec of a type whose Go definition is not in the sources: what `json.Marshal`
yields for a value of the type, and what `json.Unmarshal` of a document into a fresh value of
the type yields. -/
structure FieldCodec (α : Type) where
  marshal : α → Except String Json
  unmarshal : Json → Except String α

mutual
/-- `json.Marshal` of a value of static type `interface{}`. -/
def jsonMarshalDyn : Dyn → Except String Json
  | .nil => .ok .null
  | .bool b => .ok (.bool b)
  | .num n => .ok (.num n)
  | .str s => .ok (.str s)
  | .arr xs =>
    match jsonMarshalList xs with
    | .ok js => .ok (.arr js)
    | .error e => .error e
  | .map kvs =>
    match jsonMarshalFields kvs with
    | .ok js => .ok (.obj js)
    | .error e => .error e
  | .other (some j) => .ok j
  | .other none => .error "json: unsupported type"
/-- `json.Marshal` of the elements of a `[]interface{}`. -/
def jsonMarshalList : List Dyn → Except String (List Json)
  | [] => .ok []
  | x :: xs =>
    match jsonMarshalDyn x with
    | .error e => .error e
    | .ok j =>
      match jsonMarshalList xs with
      | .error e => .error e
      | .ok js => .ok (j :: js)
/-- `json.Marshal` of the entries of a `map[string]interface{}`, in key order. -/
def jsonMarshalFields : List (String × Dyn) → Except String (List (String × Json))
  | [] => .ok []
  | (k, x) :: xs =>
    match jsonMarshalDyn x with
    | .error e => .error e
    | .ok j =>
      match jsonMarshalFields xs with
      | .error e => .error e
      | .ok js => .ok ((k, j) :: js)
end

/-- `json.Marshal(resource)` for `resource` a `map[string]interface{}`. -/
def jsonMarshalMap (resource : List (String × Dyn)) : Except String Json :=
  jsonMarshalDyn (.map resource)

/-- Case folding of one character of an object key, as far as it matters for matching the
ASCII field names of the sources: ASCII letters fold to lower case, and so do the two
non-ASCII characters that `encoding/json` folds to ASCII letters (U+017F to `s`, U+212A to
`k`). -/
def foldRune (c : Char) : Char :=
  if c = Char.ofNat 0x17F then 's' else if c = Char.ofNat 0x212A then 'k' else c.toLower

/-- Whether `encoding/json` decodes the object member called `key` into the struct field
called `field`: the names are equal, or equal under case folding. No two fields of one
struct of the sources fold to the same name, so the preference for an exact match never
decides. -/
def fieldMatches (field key : String) : Bool :=
  key.data.map foldRune == field.data.map foldRune

/-- Decoding the members of a JSON object into a struct, in document order: `step` decodes
one member into the struct built so far; the first error ends the decoding. -/
def decodeMembers {σ : Type} (step : σ → String → Json → Except String σ) :
    σ → List (String × Json) → Except String σ
  | s, [] => .ok s
  | s, (k, v) :: kvs =>
    match step s k v with
    | .ok s' => decodeMembers step s' kvs
    | .error e => .error e

/-- Decoding a member into a pointer field: `null` sets the pointer to nil, anything else is
decoded by the codec of the pointee. -/
def decodePtr {α : Type} (c : FieldCodec α) (v : Json) : Except String (Option α) :=
  match v with
  | .null => .ok none
  | v =>
    match c.unmarshal v with
    | .ok x => .ok (some x)
    | .error e => .error e

/-- Decoding the elements of a JSON array. -/
def decodeElems {α : Type} (c : FieldCodec α) : List Json → Except String (List α)
  | [] => .ok []
  | j :: js =>
    match c.unmarshal j with
    | .error e => .error e
    | .ok x =>
      match decodeElems c js with
      | .error e => .error e
      | .ok xs => .ok (x :: xs)

/-- Decoding a member into a slice field: `null` gives the nil slice, an array a non-nil
slice (also when the array is empty), anything else is a type error. -/
def decodeSlice {α : Type} (c : FieldCodec α) (v : Json) : Except String (GoSlice α) :=
  match v with
  | .null => .ok none
  | .arr js =>
    match decodeElems c js with
    | .ok xs => .ok (some xs)
    | .error e => .error e
  | _ => .error "json: cannot unmarshal value into Go value of slice type"

/-- Encoding a pointer field tagged `omitempty`: a nil pointer is left out. -/
def encodePtr {α : Type} (c : FieldCodec α) (name : String) :
    Option α → Except String (List (String × Json))
  | none => .ok []
  | some x =>
    match c.marshal x with
    | .ok j => .ok [(name, j)]
    | .error e => .error e

/-- Encoding the elements of a slice. -/
def encodeElems {α : Type} (c : FieldCodec α) : List α → Except String (List Json)
  | [] => .ok []
  | x :: xs =>
    match c.marshal x with
    | .error e => .error e
    | .ok j =>
      match encodeElems c xs with
      | .error e => .error e
      | .ok js => .ok (j :: js)

/-- Encoding a slice field tagged `omitempty`: a slice of length zero, nil or not, is left
out. -/
def encodeSlice {α : Type} (c : FieldCodec α) (name : String) :
    GoSlice α → Except String (List (String × Json))
  | none => .ok []
  | some [] => .ok []
  | some (x :: xs) =>
    match encodeElems c (x :: xs) with
    | .ok js => .ok [(name, .arr js)]
    | .error e => .error e

/-- The anonymous struct `struct { Type string; Properties *Properties }` that
`UnmarshalJSON` decodes into. -/
structure Envelope (P : Type) where
  Type_ : String
  Properties : Option P

/-- Decoding a member into a string field holding `old`: a string is stored, `null` leaves
the field alone, anything else is a type error. -/
def decodeString (old : String) : Json → Except String String
  | .str s => .ok s
  | .null => .ok old
  | _ => .error "json: cannot unmarshal value into Go struct field of type string"

/-- Decoding a member into a field of type pointer to struct holding `old`: `null` sets the
pointer to nil, an object is decoded into the struct it points to (a fresh one when `old` is
nil), anything else is a type error. -/
def decodeStructPtr {P : Type} (zero : P)
    (decodeProperty : P → String → Json → Except String P) (old : Option P) :
    Json → Except String (Option P)
  | .null => .ok none
  | .obj kvs =>
    match decodeMembers decodeProperty (old.getD zero) kvs with
    | .ok p => .ok (some p)
    | .error e => .error e
  | _ => .error "json: cannot unmarshal value into Go struct field of struct type"

/-- Decoding one member of the envelope object into the field `Type` or `Properties`; other
members are skipped. -/
def decodeEnvelopeMember {P : Type} (zero : P)
    (decodeProperty : P → String → Json → Except String P)
    (res : Envelope P) (key : String) (v : Json) : Except String (Envelope P) :=
  if fieldMatches "Type" key then
    match decodeString res.Type_ v with
    | .ok s => .ok { res with Type_ := s }
    | .error e => .error e
  else if fieldMatches "Properties" key then
    match decodeStructPtr zero decodeProperty res.Properties v with
    | .ok p => .ok { res with Properties := p }
    | .error e => .error e
  else .ok res

/-- The call `json.Unmarshal(b, &res)` with `res` a non-nil pointer to the zero envelope. The
result is the new value of the pointer `res`: the document `null` sets it to nil, an object is
decoded into the envelope, any other document is a type error. -/
def jsonUnmarshalEnvelope {P : Type} (zero : P)
    (decodeProperty : P → String → Json → Except String P) (b : Json) :
    Except String (Option (Envelope P)) :=
  match b with
  | .null => .ok none
  | .obj kvs =>
    match decodeMembers (decodeEnvelopeMember zero decodeProperty)
        { Type_ := "", Properties := none } kvs with
    | .ok res => .ok (some res)
    | .error e => .error e
  | _ => .error "json: cannot unmarshal value into Go value of struct type"

/-- Whether a value of static type `interface{}` equals the string constant `s`, as in
`resType == "AWS::EMR::Step"`. -/
def Dyn.eqString (d : Dyn) (s : String) : Bool :=
  match d with
  | .str s' => s' == s
  | _ => false

/-! ## `AWSEMRStep` (aws-emr-step.go) -/

/-- `AWSEMRStep.AWSCloudFormationType` (aws-emr-step.go:35-37). -/
def AWSEMRStep.AWSCloudFormationType {H : Type} (_r : AWSEMRStep H) : String :=
  "AWS::EMR::Step"

/-- The members `json.Marshal` emits for the fields of `Properties` (the field list of
`AWSEMRStep`, every field `omitempty`), in field order. -/
def AWSEMRStep.encodeProperties {H : Type} (cv : FieldCodec Value) (ch : FieldCodec H)
    (p : AWSEMRStep H) : Except String (List (String × Json)) :=
  match encodePtr cv "ActionOnFailure" p.ActionOnFailure with
  | .error e => .error e
  | .ok f1 =>
    match encodePtr ch "HadoopJarStep" p.HadoopJarStep with
    | .error e => .error e
    | .ok f2 =>
      match encodePtr cv "JobFlowId" p.JobFlowId with
      | .error e => .error e
      | .ok f3 =>
        match encodePtr cv "Name" p.Name with
        | .error e => .error e
        | .ok f4 => .ok (f1 ++ f2 ++ f3 ++ f4)

/-- `AWSEMRStep.MarshalJSON` (aws-emr-step.go:41-50). -/
def AWSEMRStep.MarshalJSON {H : Type} (cv : FieldCodec Value) (ch : FieldCodec H)
    (r : AWSEMRStep H) : Except String Json :=
  match AWSEMRStep.encodeProperties cv ch r with
  | .error e => .error e
  | .ok props => .ok (.obj [("Type", .str r.AWSCloudFormationType), ("Properties", .obj props)])

/-- Decoding one member of the `Properties` object into the fields of `AWSEMRStep`. -/
def AWSEMRStep.decodeProperty {H : Type} (cv : FieldCodec Value) (ch : FieldCodec H)
    (p : AWSEMRStep H) (key : String) (v : Json) : Except String (AWSEMRStep H) :=
  if fieldMatches "ActionOnFailure" key then
    match decodePtr cv v with
    | .ok x => .ok { p with ActionOnFailure := x }
    | .error e => .error e
  else if fieldMatches "HadoopJarStep" key then
    match decodePtr ch v with
    | .ok x => .ok { p with HadoopJarStep := x }
    | .error e => .error e
  else if fieldMatches "JobFlowId" key then
    match decodePtr cv v with
    | .ok x => .ok { p with JobFlowId := x }
    | .error e => .error e
  else if fieldMatches "Name" key then
    match decodePtr cv v with
    | .ok x => .ok { p with Name := x }
    | .error e => .error e
  else .ok p

/-- `AWSEMRStep.UnmarshalJSON` (aws-emr-step.go:54-71). `r` is what the receiver holds before
the call; the result is what it holds after the call, and the returned error (`none` for
nil). When the document is `null`, `json.Unmarshal` sets `res` to nil and `res.Properties`
panics. The `fmt.Printf` of the error is not part of the embedding. -/
def AWSEMRStep.UnmarshalJSON {H : Type} (cv : FieldCodec Value) (ch : FieldCodec H)
    (r : AWSEMRStep H) (b : Json) : Outcome (AWSEMRStep H × Option String) :=
  match jsonUnmarshalEnvelope AWSEMRStep.zero (AWSEMRStep.decodeProperty cv ch) b with
  | .error err => .ret (r, some err)
  | .ok none => .panic "runtime error: invalid memory address or nil pointer dereference"
  | .ok (some res) =>
    match res.Properties with
    | some p => .ret (p, none)
    | none => .ret (r, none)

/-- The `switch resource := untyped.(type)` that `GetAllAWSEMRStepResources`
(aws-emr-step.go:77-95) and `GetAWSEMRStepWithName` (aws-emr-step.go:104-122) share: the
instance the entry stands for, if the entry passes. -/
def AWSEMRStep.typeSwitch {H M : Type} (cv : FieldCodec Value) (ch : FieldCodec H)
    (untyped : Resource H M) : Outcome (Option (AWSEMRStep H)) :=
  match untyped with
  | .emrStep resource => .ret (some resource)
  | .untyped resource =>
    match resource.lookup "Type" with
    | some resType =>
      if resType.eqString "AWS::EMR::Step" then
        match jsonMarshalMap resource with
        | .ok b =>
          match AWSEMRStep.UnmarshalJSON cv ch AWSEMRStep.zero b with
          | .ret (result, none) => .ret (some result)
          | .ret (_, some _) => .ret none
          | .panic msg => .panic msg
        | .error _ => .ret none
      else .ret none
    | none => .ret none
  | _ => .ret none

/-- The loop `for name, untyped := range t.Resources` of the two `GetAll...Resources`
functions: `pick` is the body's type switch, and `results[name]` is assigned when an
instance is picked. -/
def rangeResources {H M β : Type} (pick : Resource H M → Outcome (Option β)) :
    List (Sigma (fun _ : String => Resource H M)) → AList (fun _ : String => β) →
    Outcome (AList (fun _ : String => β))
  | [], results => .ret results
  | ⟨name, untyped⟩ :: rest, results =>
    match pick untyped with
    | .panic msg => .panic msg
    | .ret (some v) => rangeResources pick rest (AList.insert name v results)
    | .ret none => rangeResources pick rest results

/-- `Template.GetAllAWSEMRStepResources` (aws-emr-step.go:74-98). -/
def Template.GetAllAWSEMRStepResources {H M : Type} (cv : FieldCodec Value)
    (ch : FieldCodec H) (t : Template H M) : Outcome (AList (fun _ : String => AWSEMRStep H)) :=
  rangeResources (AWSEMRStep.typeSwitch cv ch) t.Resources.entries ∅

/-- `Template.GetAWSEMRStepWithName` (aws-emr-step.go:102-125): the returned instance and
error (`none` for nil). -/
def Template.GetAWSEMRStepWithName {H M : Type} (cv : FieldCodec Value) (ch : FieldCodec H)
    (t : Template H M) (name : String) : Outcome (AWSEMRStep H × Option String) :=
  match t.Resources.lookup name with
  | some untyped =>
    match AWSEMRStep.typeSwitch cv ch untyped with
    | .ret (some resource) => .ret (resource, none)
    | .ret none => .ret (AWSEMRStep.zero, some "resource not found")
    | .panic msg => .panic msg
  | none => .ret (AWSEMRStep.zero, some "resource not found")

/-! ## `AWSLogsMetricFilter` (aws-logs-metricfilter.go) -/

/-- `AWSLogsMetricFilter.AWSCloudFormationType` (aws-logs-metricfilter.go:30-32). -/
def AWSLogsMetricFilter.AWSCloudFormationType {M : Type} (_r : AWSLogsMetricFilter M) :
    String :=
  "AWS::Logs::MetricFilter"

/-- The members `json.Marshal` emits for the fields of `Properties` (the field list of
`AWSLogsMetricFilter`, every field `omitempty`), in field order. -/
def AWSLogsMetricFilter.encodeProperties {M : Type} (cv : FieldCodec Value)
    (cm : FieldCodec M) (p : AWSLogsMetricFilter M) : Except String (List (String × Json)) :=
  match encodePtr cv "FilterPattern" p.FilterPattern with
  | .error e => .error e
  | .ok f1 =>
    match encodePtr cv "LogGroupName" p.LogGroupName with
    | .error e => .error e
    | .ok f2 =>
      match encodeSlice cm "MetricTransformations" p.MetricTransformations with
      | .error e => .error e
      | .ok f3 => .ok (f1 ++ f2 ++ f3)

/-- `AWSLogsMetricFilter.MarshalJSON` (aws-logs-metricfilter.go:36-45). -/
def AWSLogsMetricFilter.MarshalJSON {M : Type} (cv : FieldCodec Value) (cm : FieldCodec M)
    (r : AWSLogsMetricFilter M) : Except String Json :=
  match AWSLogsMetricFilter.encodeProperties cv cm r with
  | .error e => .error e
  | .ok props => .ok (.obj [("Type", .str r.AWSCloudFormationType), ("Properties", .obj props)])

/-- Decoding one member of the `Properties` object into the fields of
`AWSLogsMetricFilter`. -/
def AWSLogsMetricFilter.decodeProperty {M : Type} (cv : FieldCodec Value) (cm : FieldCodec M)
    (p : AWSLogsMetricFilter M) (key : String) (v : Json) :
    Except String (AWSLogsMetricFilter M) :=
  if fieldMatches "FilterPattern" key then
    match decodePtr cv v with
    | .ok x => .ok { p with FilterPattern := x }
    | .error e => .error e
  else if fieldMatches "LogGroupName" key then
    match decodePtr cv v with
    | .ok x => .ok { p with LogGroupName := x }
    | .error e => .error e
  else if fieldMatches "MetricTransformations" key then
    match decodeSlice cm v with
    | .ok x => .ok { p with MetricTransformations := x }
    | .error e => .error e
  else .ok p

/-- `AWSLogsMetricFilter.UnmarshalJSON` (aws-logs-metricfilter.go:49-66); see
`AWSEMRStep.UnmarshalJSON`. -/
def AWSLogsMetricFilter.UnmarshalJSON {M : Type} (cv : FieldCodec Value) (cm : FieldCodec M)
    (r : AWSLogsMetricFilter M) (b : Json) : Outcome (AWSLogsMetricFilter M × Option String) :=
  match jsonUnmarshalEnvelope AWSLogsMetricFilter.zero
      (AWSLogsMetricFilter.decodeProperty cv cm) b with
  | .error err => .ret (r, some err)
  | .ok none => .panic "runtime error: invalid memory address or nil pointer dereference"
  | .ok (some res) =>
    match res.Properties with
    | some p => .ret (p, none)
    | none => .ret (r, none)

/-- The `switch resource := untyped.(type)` that `GetAllAWSLogsMetricFilterResources`
(aws-logs-metricfilter.go:72-90) and `GetAWSLogsMetricFilterWithName`
(aws-logs-metricfilter.go:99-117) share. -/
def AWSLogsMetricFilter.typeSwitch {H M : Type} (cv : FieldCodec Value) (cm : FieldCodec M)
    (untyped : Resource H M) : Outcome (Option (AWSLogsMetricFilter M)) :=
  match untyped with
  | .logsMetricFilter resource => .ret (some resource)
  | .untyped resource =>
    match resource.lookup "Type" with
    | some resType =>
      if resType.eqString "AWS::Logs::MetricFilter" then
        match jsonMarshalMap resource with
        | .ok b =>
          match AWSLogsMetricFilter.UnmarshalJSON cv cm AWSLogsMetricFilter.zero b with
          | .ret (result, none) => .ret (some result)
          | .ret (_, some _) => .ret none
          | .panic msg => .panic msg
        | .error _ => .ret none
      else .ret none
    | none => .ret none
  | _ => .ret none

/-- `Template.GetAllAWSLogsMetricFilterResources` (aws-logs-metricfilter.go:69-93). -/
def Template.GetAllAWSLogsMetricFilterResources {H M : Type} (cv : FieldCodec Value)
    (cm : FieldCodec M) (t : Template H M) :
    Outcome (AList (fun _ : String => AWSLogsMetricFilter M)) :=
  rangeResources (AWSLogsMetricFilter.typeSwitch cv cm) t.Resources.entries ∅

/-- `Template.GetAWSLogsMetricFilterWithName` (aws-logs-metricfilter.go:97-120): the returned
instance and error (`none` for nil). -/
def Template.GetAWSLogsMetricFilterWithName {H M : Type} (cv : FieldCodec Value)
    (cm : FieldCodec M) (t : Template H M) (name : String) :
    Outcome (AWSLogsMetricFilter M × Option String) :=
  match t.Resources.lookup name with
  | some untyped =>
    match AWSLogsMetricFilter.typeSwitch cv cm untyped with
    | .ret (some resource) => .ret (resource, none)
    | .ret none => .ret (AWSLogsMetricFilter.zero, some "resource not found")
    | .panic msg => .panic msg
  | none => .ret (AWSLogsMetricFilter.zero, some "resource not found")

/-! ## Notions used in the statements -/

/-- Running `g` on the result of a call that returned; a panic ends the run. -/
def Outcome.andThen {α β : Type} (o : Outcome α) (g : α → Outcome β) : Outcome β :=
  match o with
  | .ret a => g a
  | .panic msg => .panic msg

/-- A codec round-trips when every value encodes to a document that decodes to it. -/
def FieldCodec.RoundTrips {α : Type} (c : FieldCodec α) : Prop :=
  ∀ x, ∃ j, c.marshal x = .ok j ∧ c.unmarshal j = .ok x

/-- A codec round-trips behind a pointer when, in addition, no value encodes to `null` (which
a pointer field decodes to nil). -/
def FieldCodec.RoundTripsNonNull {α : Type} (c : FieldCodec α) : Prop :=
  ∀ x, ∃ j, c.marshal x = .ok j ∧ j ≠ .null ∧ c.unmarshal j = .ok x

/-- Whether a dynamic value is a JSON scalar or array, that is, neither a map nor nil nor a
value with an encoding of its own. -/
def Dyn.isScalarOrArray : Dyn → Bool
  | .bool _ => true
  | .num _ => true
  | .str _ => true
  | .arr _ => true
  | _ => false

/-! ## Sample data -/

/-- A heap with a taggable struct at address 0 (a VPC with a CIDR block and a nil `Tags`
slice), an `AWSEMRStep` at address 1, a struct whose `Tags` is not a `[]Tag` at address 2, a
`struct { *Inner }` whose embedded pointer is nil, `Inner` having a field `Tags` of type
`string`, at address 4, a struct that embeds a struct `Common` with a nil `[]Tag` field `Tags`
at address 5, and an `AWSLogsMetricFilter` elsewhere. -/
def sampleHeap : Heap String String := fun a =>
  if a = 0 then
    .struct [{ name := "CidrBlock", val := .other (.str "192.168.0.0/16") },
             { name := "Tags", val := .tags none }]
  else if a = 1 then .emrStep { AWSEMRStep.zero with Name := some (NewString "step") }
  else if a = 2 then .struct [{ name := "Tags", val := .other (.map [("k", .str "v")]) }]
  else if a = 4 then
    .embedding [.embeddedPtr "Inner" true [.field { name := "Tags", val := .other (.str "") }]]
  else if a = 5 then
    .embedding [.field { name := "CidrBlock", val := .other (.str "192.168.0.0/24") },
                .embedded "Common" [.field { name := "Tags", val := .tags none }]]
  else .logsMetricFilter AWSLogsMetricFilter.zero

/-- Modelled from the spec: a codec for `Value` following section 6 (a literal is a bare JSON
string, a reference is `{"Ref": name}`, a substitution is `{"Fn::Sub": template}`), decoding
being the reverse reading. The codec of `Value` itself is not in the sources; this one only
serves as a sample. -/
def sampleValueCodec : FieldCodec Value where
  marshal v :=
    match v with
    | .literal s => .ok (.str s)
    | .reference n => .ok (.obj [("Ref", .str n)])
    | .substitution t => .ok (.obj [("Fn::Sub", .str t)])
  unmarshal j :=
    match j with
    | .str s => .ok (.literal s)
    | .obj [(k, .str s)] =>
      if k = "Ref" then .ok (.reference s)
      else if k = "Fn::Sub" then .ok (.substitution s)
      else .error "json: not a value"
    | _ => .error "json: not a value"

/-- A sample codec for a property type that is a plain string. -/
def stringCodec : FieldCodec String where
  marshal s := .ok (.str s)
  unmarshal j :=
    match j with
    | .str s => .ok s
    | _ => .error "json: cannot unmarshal value into Go value of type string"

/-- An `AWSEMRStep` with three fields set. -/
def sampleStep : AWSEMRStep String :=
  { ActionOnFailure := some (NewString "CONTINUE"),
    HadoopJarStep := some "command-runner.jar",
    JobFlowId := some (MakeRef "Cluster"),
    Name := none }

/-- An `AWSLogsMetricFilter` with two metric transformations. -/
def sampleFilter : AWSLogsMetricFilter String :=
  { FilterPattern := some (NewString "ERROR"),
    LogGroupName := some (MakeRef "LogGroup"),
    MetricTransformations := some ["errors", "warnings"] }

/-- An `AWSLogsMetricFilter` whose only content is a non-nil, empty `MetricTransformations`
(`AWSLogsMetricFilter{MetricTransformations: []T{}}`). -/
def emptySliceFilter : AWSLogsMetricFilter String :=
  { FilterPattern := none, LogGroupName := none, MetricTransformations := some [] }

/-- A template as parsed from a stored document, plus one typed entry: a well-formed and a
malformed untyped entry for each of the two kinds, an untyped entry of another kind, and an
`AWSEMRStep` held by value. -/
def sampleTemplate : Template String String :=
  { Parameters := ∅,
    Resources :=
      AList.insert "Good"
        (.untyped [("Properties", .map [("Name", .str "step")]),
                   ("Type", .str "AWS::EMR::Step")])
      (AList.insert "Bad"
        (.untyped [("Properties", .str "oops"), ("Type", .str "AWS::EMR::Step")])
      (AList.insert "GoodFilter"
        (.untyped [("Properties", .map [("FilterPattern", .str "ERROR")]),
                   ("Type", .str "AWS::Logs::MetricFilter")])
      (AList.insert "BadFilter"
        (.untyped [("Properties", .arr []), ("Type", .str "AWS::Logs::MetricFilter")])
      (AList.insert "Bucket"
        (.untyped [("Type", .str "AWS::S3::Bucket")])
      (AList.insert "Typed" (.emrStep sampleStep)
      (AList.insert "TypedFilter" (.logsMetricFilter sampleFilter) ∅)))))),
    Outputs := ∅ }



/-- Whether an object member is decoded into the field `Type` of the envelope and holds a
string. -/
def isTypeString (kv : String × Json) : Bool :=
  fieldMatches "Type" kv.1 &&
    (match kv.2 with
     | .str _ => true
     | _ => false)

/-- The members of an envelope object without its string-valued `Type` members. Two envelopes
differ only in the string value of `Type` (or in having such a member at all) when this
leaves the same members. -/
def eraseTypeStrings (kvs : List (String × Json)) : List (String × Json) :=
  kvs.filter (fun kv => !isTypeString kv)

/-- Two results of decoding an envelope agree when they are the same error, or envelopes with
the same `Properties`. -/
def AgreeOnProperties {P : Type} :
    Except String (Envelope P) → Except String (Envelope P) → Prop
  | .ok a, .ok b => a.Properties = b.Properties
  | .error e, .error e' => e = e'
  | _, _ => False



/-- The tag sequence of a struct without embedded fields that a pointer points to: the
elements of its `[]Tag` field `Tags`, none when there is no such field. -/
def Pointee.tags {H M : Type} : Pointee H M → List Tag
  | .struct fields =>
    match FieldByName fields "Tags" with
    | some f =>
      (match f.val with
       | .tags ts => GoSlice.toList ts
       | .other _ => [])
    | none => []
  | _ => []



/-- A codec whose `marshal` never fails. -/
def FieldCodec.MarshalTotal {α : Type} (c : FieldCodec α) : Prop :=
  ∀ x, ∃ j, c.marshal x = .ok j

/-- A value round-trips through a codec: it encodes to a document that decodes to it. -/
def FieldCodec.RoundTripsAt {α : Type} (c : FieldCodec α) (x : α) : Prop :=
  ∃ j, c.marshal x = .ok j ∧ c.unmarshal j = .ok x

/-- A value behind a pointer field round-trips through a codec: it encodes to a document
other than `null` (which a pointer field decodes to nil) that decodes to it. -/
def FieldCodec.RoundTripsNonNullAt {α : Type} (c : FieldCodec α) (x : α) : Prop :=
  ∃ j, c.marshal x = .ok j ∧ j ≠ .null ∧ c.unmarshal j = .ok x

/-- The values behind the pointer fields of an `AWSEMRStep` round-trip through the codecs of
their types; a nil field asks nothing. -/
def AWSEMRStep.FieldsRoundTrip {H : Type} (cv : FieldCodec Value) (ch : FieldCodec H)
    (x : AWSEMRStep H) : Prop :=
  (∀ v, x.ActionOnFailure = some v → cv.RoundTripsNonNullAt v) ∧
  (∀ v, x.HadoopJarStep = some v → ch.RoundTripsNonNullAt v) ∧
  (∀ v, x.JobFlowId = some v → cv.RoundTripsNonNullAt v) ∧
  (∀ v, x.Name = some v → cv.RoundTripsNonNullAt v)

/-- The values behind the pointer fields of an `AWSLogsMetricFilter` and the elements of its
`MetricTransformations` round-trip through the codecs of their types; a nil field asks
nothing. -/
def AWSLogsMetricFilter.FieldsRoundTrip {M : Type} (cv : FieldCodec Value)
    (cm : FieldCodec M) (x : AWSLogsMetricFilter M) : Prop :=
  (∀ v, x.FilterPattern = some v → cv.RoundTripsNonNullAt v) ∧
  (∀ v, x.LogGroupName = some v → cv.RoundTripsNonNullAt v) ∧
  (∀ m, m ∈ GoSlice.toList x.MetricTransformations → cm.RoundTripsAt m)

/-! ## Reflection helpers -/

theorem FieldByName_cons (f : Field) (fs : List Field) (g : String) :
    FieldByName (f :: fs) g = if f.name = g then some f else FieldByName fs g := by
  by_cases h : f.name = g <;> simp [FieldByName, List.find?_cons, h]

theorem setField_cons (name : String) (v : FieldVal) (f : Field) (fs : List Field) :
    setField name v (f :: fs) =
      if f.name = name then { f with val := v } :: fs else f :: setField name v fs := rfl

theorem FieldByName_setField_same (name : String) (v : FieldVal) (fields : List Field) :
    FieldByName (setField name v fields) name =
      (FieldByName fields name).map (fun f => { f with val := v }) := by
  induction fields with
  | nil => rfl
  | cons f fs ih =>
    rw [setField_cons]
    by_cases h : f.name = name
    · rw [if_pos h, FieldByName_cons, FieldByName_cons, if_pos h, if_pos h]; rfl
    · rw [if_neg h, FieldByName_cons, FieldByName_cons, if_neg h, if_neg h, ih]

theorem FieldByName_setField_ne (name g : String) (v : FieldVal) (fields : List Field)
    (hg : g ≠ name) : FieldByName (setField name v fields) g = FieldByName fields g := by
  induction fields with
  | nil => rfl
  | cons f fs ih =>
    rw [setField_cons]
    by_cases h : f.name = name
    · have hfg : ¬ f.name = g := fun h' => hg (h'.symm.trans h)
      rw [if_pos h, FieldByName_cons, FieldByName_cons, if_neg hfg, if_neg hfg]
    · rw [if_neg h, FieldByName_cons, FieldByName_cons, ih]

theorem setField_names (name : String) (v : FieldVal) (fields : List Field) :
    (setField name v fields).map Field.name = fields.map Field.name := by
  induction fields with
  | nil => rfl
  | cons f fs ih =>
    rw [setField_cons]
    by_cases h : f.name = name
    · rw [if_pos h]; rfl
    · rw [if_neg h, List.map_cons, List.map_cons, ih]

/-! ## The builder -/

/-- What `newResource` does once `maybeSetNameTag` has returned. -/
theorem newResource_of_maybeSetNameTag {H M : Type} (r : resourceSet H M) (heap heap' : Heap H M)
    (n : String) (res : Resource H M) (h : maybeSetNameTag heap n res = .ret heap') :
    r.newResource heap n res =
      .ret (heap',
        { r with template :=
            { r.template with Resources := AList.insert n res r.template.Resources } },
        MakeRef n) := by
  simp [resourceSet.newResource, h]

/-- C2. Auto-tag injection: when `r` is passed by reference and its struct has a field `Tags`
of type `[]Tag` holding `ts` (nil, empty or not), `newResource(n, r)` returns, stores the
reference under `n`, and afterwards the struct is the old one with
`Tags = ts ++ [makeAutoNameTag(n)]`: every other field, and the field list, is unchanged, and
so is every other heap cell. -/
theorem newResource_appends_name_tag {H M : Type} (r : resourceSet H M) (heap : Heap H M)
    (n : String) (a : Nat) (fields : List Field) (f : Field) (ts : GoSlice Tag)
    (hcell : heap a = .struct fields) (hf : FieldByName fields "Tags" = some f)
    (hty : f.val = .tags ts) :
    ∃ heap' r' fields', r.newResource heap n (.ptr a) = .ret (heap', r', Value.reference n) ∧
      r'.template.Resources.lookup n = some (.ptr a) ∧
      heap' a = .struct fields' ∧
      FieldByName fields' "Tags" =
        some { name := f.name, val := .tags (some (GoSlice.toList ts ++ [makeAutoNameTag n])) } ∧
      (∀ g, g ≠ "Tags" → FieldByName fields' g = FieldByName fields g) ∧
      fields'.map Field.name = fields.map Field.name ∧
      (∀ a', a' ≠ a → heap' a' = heap a') := by
  have h : maybeSetNameTag heap n (.ptr a) =
      .ret (Function.update heap a (.struct (setField "Tags"
        (.tags (GoSlice.append ts (makeAutoNameTag n))) fields))) := by
    simp [maybeSetNameTag, hcell, hf, hty]
  refine ⟨_, _, setField "Tags" (.tags (GoSlice.append ts (makeAutoNameTag n))) fields,
    newResource_of_maybeSetNameTag r heap _ n _ h, ?_, ?_, ?_, ?_, ?_, ?_⟩
  · simp
  · simp
  · rw [FieldByName_setField_same, hf]; rfl
  · intro g hg
    exact FieldByName_setField_ne "Tags" g _ fields hg
  · exact setField_names _ _ _
  · intro a' ha'
    simp [Function.update, ha']

/-- Witness for C2: registering the sample VPC (address 0, nil `Tags`) as `VPC`. -/
theorem newResource_appends_name_tag_witness :
    ∃ heap' r' fields',
      (newResourceSet : resourceSet String String).newResource sampleHeap "VPC" (.ptr 0) =
        .ret (heap', r', Value.reference "VPC") ∧
      r'.template.Resources.lookup "VPC" = some (.ptr 0) ∧
      heap' 0 = .struct fields' ∧
      FieldByName fields' "Tags" =
        some { name := "Tags", val := .tags (some ([] ++ [makeAutoNameTag "VPC"])) } ∧
      (∀ g, g ≠ "Tags" → FieldByName fields' g =
        FieldByName [{ name := "CidrBlock", val := .other (.str "192.168.0.0/16") },
                     { name := "Tags", val := .tags none }] g) ∧
      fields'.map Field.name = ["CidrBlock", "Tags"] ∧
      (∀ a', a' ≠ 0 → heap' a' = sampleHeap a') :=
  newResource_appends_name_tag newResourceSet sampleHeap "VPC" 0
    [{ name := "CidrBlock", val := .other (.str "192.168.0.0/16") },
     { name := "Tags", val := .tags none }]
    { name := "Tags", val := .tags none } none rfl rfl rfl

/-- C3. `newResource(n, a)` followed by `newResource(n, b)` with `a` an `AWSEMRStep` passed by
value and `b` the sample step passed by reference: the first call panics in
`reflect.Value.Elem`, so the two calls do not reach a state in which `n` is mapped to `b`. -/
theorem newResource_twice_by_value_panics :
    ((newResourceSet : resourceSet String String).newResource sampleHeap "Step"
        (.emrStep AWSEMRStep.zero)).andThen
      (fun s => s.2.1.newResource s.1 "Step" (.ptr 1)) =
      .panic "reflect: call of reflect.Value.Elem on struct Value" ∧
    ¬ ∃ s, ((newResourceSet : resourceSet String String).newResource sampleHeap "Step"
        (.emrStep AWSEMRStep.zero)).andThen
      (fun s => s.2.1.newResource s.1 "Step" (.ptr 1)) = .ret s :=
  ⟨rfl, fun h => h.elim fun _ hs => Outcome.noConfusion hs⟩

/-- Silent degrade where `FieldByName` returns: when `r` is passed by reference and is an
`AWSEMRStep`, an `AWSLogsMetricFilter`, or a struct for which `FieldByName("Tags")` finds no
field or a field that is not a `[]Tag` (an embedded field among them), `newResource(n, r)`
returns `Reference(n)`, leaves the heap as it was and stores the reference under `n`. -/
theorem newResource_untaggable_unchanged {H M : Type} (r : resourceSet H M) (heap : Heap H M)
    (n : String) (a : Nat)
    (h : (∃ x, heap a = .emrStep x) ∨ (∃ x, heap a = .logsMetricFilter x) ∨
      (∃ fields, heap a = .struct fields ∧
        (FieldByName fields "Tags" = none ∨
          ∃ f d, FieldByName fields "Tags" = some f ∧ f.val = .other d)) ∨
      (∃ members found, heap a = .embedding members ∧
        FieldByNamePromoted members "Tags" = .ret found ∧
        (found = none ∨ (∃ d, found = some (.embeddedField, d)) ∨
          ∃ f d v, found = some (.field f, d) ∧ f.val = .other v))) :
    ∃ r', r.newResource heap n (.ptr a) = .ret (heap, r', Value.reference n) ∧
      r'.template.Resources.lookup n = some (.ptr a) := by
  have hm : maybeSetNameTag heap n (.ptr a) = .ret heap := by
    rcases h with ⟨x, hx⟩ | ⟨x, hx⟩ | ⟨fields, hc, hnone | ⟨f, d, hf, hv⟩⟩ |
      ⟨members, found, hc, hf, rfl | ⟨d, rfl⟩ | ⟨f, d, v, rfl, hv⟩⟩
    · simp [maybeSetNameTag, hx]
    · simp [maybeSetNameTag, hx]
    · simp [maybeSetNameTag, hc, hnone]
    · simp [maybeSetNameTag, hc, hf, hv]
    · simp [maybeSetNameTag, hc, hf, setPromotedNameTag]
    · simp [maybeSetNameTag, hc, hf, setPromotedNameTag]
    · simp [maybeSetNameTag, hc, hf, setPromotedNameTag, hv]
  refine ⟨_, newResource_of_maybeSetNameTag r heap heap n _ hm, ?_⟩
  simp

/-- C4. Silent degrade fails for a `Tags` field promoted through a nil embedded pointer: for
`r` a pointer to `struct { *Inner }` with the embedded pointer nil, where `Inner` has a field
`Tags` of type `string` (address 4 of the sample heap), `newResource(n, r)` panics in
`reflect.Value.FieldByName` and stores nothing. -/
theorem newResource_nil_embedded_pointer_panics :
    (newResourceSet : resourceSet String String).newResource sampleHeap "Outer" (.ptr 4) =
      .panic "reflect: indirection through nil pointer to embedded struct" ∧
    ¬ ∃ s, (newResourceSet : resourceSet String String).newResource sampleHeap "Outer"
      (.ptr 4) = .ret s :=
  ⟨rfl, fun h => h.elim fun _ hs => Outcome.noConfusion hs⟩

/-- A `Tags` field promoted through an embedded struct, or through an embedded pointer that
is not nil, is tagged like a field of the struct itself (address 5 of the sample heap). -/
theorem maybeSetNameTag_promoted_sample :
    ∃ heap', maybeSetNameTag sampleHeap "Subnet" (.ptr 5) = .ret heap' ∧
      heap' 5 = .embedding
        [.field { name := "CidrBlock", val := .other (.str "192.168.0.0/24") },
         .embedded "Common"
           [.field { name := "Tags", val := .tags (some [makeAutoNameTag "Subnet"]) }]] :=
  ⟨_, rfl, rfl⟩

/-- C5. `newResource` on a value that is not a pointer: for an `AWSEMRStep` passed by value,
for a `map[string]interface{}` and for nil the call panics in `reflect.Value.Elem` and stores
nothing. -/
theorem newResource_panics_on_non_pointer :
    (newResourceSet : resourceSet String String).newResource sampleHeap "Step"
        (.emrStep AWSEMRStep.zero) =
      .panic "reflect: call of reflect.Value.Elem on struct Value" ∧
    (newResourceSet : resourceSet String String).newResource sampleHeap "Step"
        (.untyped [("Properties", .map []), ("Type", .str "AWS::EMR::Step")]) =
      .panic "reflect: call of reflect.Value.Elem on map Value" ∧
    (newResourceSet : resourceSet String String).newResource sampleHeap "Step" .nil =
      .panic "reflect: call of reflect.Value.Elem on zero Value" :=
  ⟨rfl, rfl, rfl⟩

/-- C6. `newResource(n, r)` with `r` an `AWSLogsMetricFilter` passed by value, on a resource
set that already has a parameter `n`: the call panics in `reflect.Value.Elem` and returns no
reference. -/
theorem newResource_by_value_returns_nothing :
    ((newResourceSet : resourceSet String String).newStringParameter "Filter" "").1.newResource
        sampleHeap "Filter" (.logsMetricFilter AWSLogsMetricFilter.zero) =
      .panic "reflect: call of reflect.Value.Elem on struct Value" ∧
    ¬ ∃ s, ((newResourceSet : resourceSet String String).newStringParameter
        "Filter" "").1.newResource
        sampleHeap "Filter" (.logsMetricFilter AWSLogsMetricFilter.zero) = .ret s :=
  ⟨rfl, fun h => h.elim fun _ hs => Outcome.noConfusion hs⟩

theorem lookup_insert_empty {β : Type} (k a : String) (b : β) :
    (AList.insert a b (∅ : AList (fun _ : String => β))).lookup k =
      if k = a then some b else none := by
  by_cases h : k = a
  · subst h; rw [AList.lookup_insert, if_pos rfl]
  · rw [AList.lookup_insert_ne h, if_neg h]; rfl

/-- The parameter entry `newParameter` stores, and its frame. -/
theorem newParameter_spec {H M : Type} (r : resourceSet H M) (n ty d : String) :
    (r.newParameter n ty d).2 = Value.reference n ∧
    (∃ p, (r.newParameter n ty d).1.template.Parameters.lookup n = some p ∧
      ∀ k, p.lookup k =
        if k = "Type" then some ty else if k = "Default" ∧ d ≠ "" then some d else none) ∧
    (∀ k, k ≠ n → (r.newParameter n ty d).1.template.Parameters.lookup k =
      r.template.Parameters.lookup k) ∧
    (r.newParameter n ty d).1.template.Resources = r.template.Resources ∧
    (r.newParameter n ty d).1.template.Outputs = r.template.Outputs := by
  refine ⟨rfl,
    ⟨if d ≠ "" then AList.insert "Default" d (AList.insert "Type" ty ∅)
      else AList.insert "Type" ty ∅, by simp [resourceSet.newParameter], ?_⟩, ?_, rfl, rfl⟩
  · intro k
    have hTD : ("Type" : String) ≠ "Default" := by decide
    by_cases hd : d = ""
    · rw [if_neg (not_not.mpr hd), lookup_insert_empty]
      by_cases hk : k = "Type"
      · rw [if_pos hk, if_pos hk]
      · rw [if_neg hk, if_neg hk, if_neg (fun h => h.2 hd)]
    · rw [if_pos hd]
      by_cases hk : k = "Type"
      · subst hk
        rw [AList.lookup_insert_ne hTD, lookup_insert_empty, if_pos rfl, if_pos rfl]
      · by_cases hk2 : k = "Default"
        · subst hk2
          rw [AList.lookup_insert, if_neg hk, if_pos ⟨rfl, hd⟩]
        · rw [AList.lookup_insert_ne hk2, lookup_insert_empty, if_neg hk, if_neg hk,
            if_neg (fun h => hk2 h.1)]
  · intro k hk
    simp [resourceSet.newParameter, AList.lookup_insert_ne hk]

/-- C7. Parameter declaration: `newStringParameter(n, d)` (resp. `newNumberParameter`) returns
`Reference(n)` and leaves the parameter entry `n` with exactly the key `Type`, set to `String`
(resp. `Number`), plus the key `Default`, set to `d`, if and only if `d` is not empty; the
entry does not depend on what was stored under `n` before, and the other parameters, the
resources and the outputs are unchanged. -/
theorem newStringParameter_newNumberParameter_spec {H M : Type} (r : resourceSet H M)
    (n d : String) :
    ((r.newStringParameter n d).2 = Value.reference n ∧
      (∃ p, (r.newStringParameter n d).1.template.Parameters.lookup n = some p ∧
        ∀ k, p.lookup k =
          if k = "Type" then some "String"
          else if k = "Default" ∧ d ≠ "" then some d else none) ∧
      (∀ k, k ≠ n → (r.newStringParameter n d).1.template.Parameters.lookup k =
        r.template.Parameters.lookup k) ∧
      (r.newStringParameter n d).1.template.Resources = r.template.Resources ∧
      (r.newStringParameter n d).1.template.Outputs = r.template.Outputs) ∧
    ((r.newNumberParameter n d).2 = Value.reference n ∧
      (∃ p, (r.newNumberParameter n d).1.template.Parameters.lookup n = some p ∧
        ∀ k, p.lookup k =
          if k = "Type" then some "Number"
          else if k = "Default" ∧ d ≠ "" then some d else none) ∧
      (∀ k, k ≠ n → (r.newNumberParameter n d).1.template.Parameters.lookup k =
        r.template.Parameters.lookup k) ∧
      (r.newNumberParameter n d).1.template.Resources = r.template.Resources ∧
      (r.newNumberParameter n d).1.template.Outputs = r.template.Outputs) :=
  ⟨newParameter_spec r n "String" d, newParameter_spec r n "Number" d⟩

/-! ## The envelope codec -/

theorem decodePtr_of_ne_null {α : Type} (c : FieldCodec α) (j : Json) (h : j ≠ .null) :
    decodePtr c j =
      match c.unmarshal j with
      | .ok x => .ok (some x)
      | .error e => .error e := by
  cases j <;> first | exact absurd rfl h | rfl

theorem decodePtr_some_inv {α : Type} (c : FieldCodec α) (j : Json) (v : α)
    (h : decodePtr c j = .ok (some v)) : j ≠ .null ∧ c.unmarshal j = .ok v := by
  have hn : j ≠ .null := by
    rintro rfl
    simp [decodePtr] at h
  rw [decodePtr_of_ne_null c j hn] at h
  refine ⟨hn, ?_⟩
  cases hu : c.unmarshal j with
  | error e => rw [hu] at h; cases h
  | ok w => rw [hu] at h; cases h; rfl

/-- What an `omitempty` pointer field encodes to, and how the member decodes, when the value
behind the pointer round-trips. -/
theorem encodePtr_roundtrip {α : Type} (c : FieldCodec α) (name : String) (f : Option α)
    (hf : ∀ v, f = some v → c.RoundTripsNonNullAt v) :
    (f = none ∧ encodePtr c name f = .ok []) ∨
      ∃ j, encodePtr c name f = .ok [(name, j)] ∧ decodePtr c j = .ok f := by
  cases f with
  | none => exact Or.inl ⟨rfl, rfl⟩
  | some x =>
    obtain ⟨j, hm, hn, hu⟩ := hf x rfl
    refine Or.inr ⟨j, by simp [encodePtr, hm], ?_⟩
    rw [decodePtr_of_ne_null c j hn, hu]

theorem encodePtr_inv {α : Type} (c : FieldCodec α) (name : String) (f : Option α)
    (l : List (String × Json)) (h : encodePtr c name f = .ok l) :
    (f = none ∧ l = []) ∨ ∃ v j, f = some v ∧ c.marshal v = .ok j ∧ l = [(name, j)] := by
  cases f with
  | none => cases h; exact Or.inl ⟨rfl, rfl⟩
  | some v =>
    rw [encodePtr] at h
    cases hm : c.marshal v with
    | error e => rw [hm] at h; cases h
    | ok j => rw [hm] at h; cases h; exact Or.inr ⟨v, j, rfl, hm, rfl⟩

theorem encodeElems_roundtrip {α : Type} (c : FieldCodec α) (xs : List α)
    (hxs : ∀ x, x ∈ xs → c.RoundTripsAt x) :
    ∃ js, encodeElems c xs = .ok js ∧ decodeElems c js = .ok xs := by
  induction xs with
  | nil => exact ⟨[], rfl, rfl⟩
  | cons x xs ih =>
    obtain ⟨js, he, hd⟩ := ih fun y hy => hxs y (List.mem_cons_of_mem _ hy)
    obtain ⟨j, hm, hu⟩ := hxs x (List.mem_cons_self _ _)
    exact ⟨j :: js, by simp [encodeElems, hm, he], by simp [decodeElems, hu, hd]⟩

theorem encodeElems_inv {α : Type} (c : FieldCodec α) (xs : List α) (js : List Json)
    (he : encodeElems c xs = .ok js) (hd : decodeElems c js = .ok xs) :
    ∀ x, x ∈ xs → c.RoundTripsAt x := by
  induction xs generalizing js with
  | nil => intro x hx; cases hx
  | cons y ys ih =>
    rw [encodeElems] at he
    cases hm : c.marshal y with
    | error e => rw [hm] at he; cases he
    | ok j =>
      rw [hm] at he
      cases hr : encodeElems c ys with
      | error e => rw [hr] at he; cases he
      | ok js' =>
        rw [hr] at he
        cases he
        rw [decodeElems] at hd
        cases hu : c.unmarshal j with
        | error e => rw [hu] at hd; cases hd
        | ok w =>
          rw [hu] at hd
          cases hr' : decodeElems c js' with
          | error e => rw [hr'] at hd; cases hd
          | ok ws =>
            rw [hr'] at hd
            cases hd
            intro x hx
            rcases List.mem_cons.mp hx with rfl | hx'
            · exact ⟨j, hm, hu⟩
            · exact ih js' hr hr' x hx'

/-- What an `omitempty` slice field encodes to, and how the member decodes, when the elements
round-trip: a slice of length zero is left out, so that a non-nil empty slice is not
restored. -/
theorem encodeSlice_roundtrip {α : Type} (c : FieldCodec α) (name : String) (f : GoSlice α)
    (hf : ∀ x, x ∈ GoSlice.toList f → c.RoundTripsAt x) :
    ((f = none ∨ f = some []) ∧ encodeSlice c name f = .ok []) ∨
      ∃ x xs j, f = some (x :: xs) ∧ encodeSlice c name f = .ok [(name, j)] ∧
        decodeSlice c j = .ok (some (x :: xs)) := by
  cases f with
  | none => exact Or.inl ⟨Or.inl rfl, rfl⟩
  | some xs =>
    cases xs with
    | nil => exact Or.inl ⟨Or.inr rfl, rfl⟩
    | cons x xs =>
      obtain ⟨js, he, hd⟩ := encodeElems_roundtrip c (x :: xs) hf
      exact Or.inr ⟨x, xs, .arr js, rfl, by simp [encodeSlice, he], by simp [decodeSlice, hd]⟩

theorem encodeSlice_inv {α : Type} (c : FieldCodec α) (name : String) (f : GoSlice α)
    (l : List (String × Json)) (h : encodeSlice c name f = .ok l) :
    ((f = none ∨ f = some []) ∧ l = []) ∨
      ∃ x xs js, f = some (x :: xs) ∧ encodeElems c (x :: xs) = .ok js ∧
        l = [(name, .arr js)] := by
  cases f with
  | none => cases h; exact Or.inl ⟨Or.inl rfl, rfl⟩
  | some xs =>
    cases xs with
    | nil => cases h; exact Or.inl ⟨Or.inr rfl, rfl⟩
    | cons x xs =>
      rw [encodeSlice] at h
      cases he : encodeElems c (x :: xs) with
      | error e => rw [he] at h; cases h
      | ok js => rw [he] at h; cases h; exact Or.inr ⟨x, xs, js, rfl, he, rfl⟩

theorem decodeSlice_arr_inv {α : Type} (c : FieldCodec α) (js : List Json) (f : GoSlice α)
    (h : decodeSlice c (.arr js) = .ok f) : ∃ xs, f = some xs ∧ decodeElems c js = .ok xs := by
  rw [decodeSlice] at h
  cases hd : decodeElems c js with
  | error e => rw [hd] at h; cases h
  | ok xs => rw [hd] at h; cases h; exact ⟨xs, rfl, rfl⟩

/-- Sufficiency for `AWSEMRStep`: when the values behind its pointer fields round-trip, so
does the instance through its envelope. -/
theorem emrStep_roundtrip {H : Type} (cv : FieldCodec Value) (ch : FieldCodec H)
    (x : AWSEMRStep H)
    (h1 : ∀ v, x.ActionOnFailure = some v → cv.RoundTripsNonNullAt v)
    (h2 : ∀ v, x.HadoopJarStep = some v → ch.RoundTripsNonNullAt v)
    (h3 : ∀ v, x.JobFlowId = some v → cv.RoundTripsNonNullAt v)
    (h4 : ∀ v, x.Name = some v → cv.RoundTripsNonNullAt v) :
    ∃ b, AWSEMRStep.MarshalJSON cv ch x = .ok b ∧
      AWSEMRStep.UnmarshalJSON cv ch AWSEMRStep.zero b = .ret (x, none) := by
  obtain ⟨f1, f2, f3, f4⟩ := x
  rcases encodePtr_roundtrip cv "ActionOnFailure" f1 h1 with ⟨rfl, e1⟩ | ⟨j1, e1, d1⟩ <;>
  rcases encodePtr_roundtrip ch "HadoopJarStep" f2 h2 with ⟨rfl, e2⟩ | ⟨j2, e2, d2⟩ <;>
  rcases encodePtr_roundtrip cv "JobFlowId" f3 h3 with ⟨rfl, e3⟩ | ⟨j3, e3, d3⟩ <;>
  rcases encodePtr_roundtrip cv "Name" f4 h4 with ⟨rfl, e4⟩ | ⟨j4, e4, d4⟩ <;>
  simp +decide [AWSEMRStep.MarshalJSON, AWSEMRStep.encodeProperties, AWSEMRStep.UnmarshalJSON,
    jsonUnmarshalEnvelope, decodeMembers, decodeEnvelopeMember, decodeString, decodeStructPtr,
    AWSEMRStep.decodeProperty, AWSEMRStep.zero, *]

theorem emrStep_marshal_inv {H : Type} (cv : FieldCodec Value) (ch : FieldCodec H)
    (x : AWSEMRStep H) (b : Json) (h : AWSEMRStep.MarshalJSON cv ch x = .ok b) :
    ∃ f1 f2 f3 f4, encodePtr cv "ActionOnFailure" x.ActionOnFailure = .ok f1 ∧
      encodePtr ch "HadoopJarStep" x.HadoopJarStep = .ok f2 ∧
      encodePtr cv "JobFlowId" x.JobFlowId = .ok f3 ∧
      encodePtr cv "Name" x.Name = .ok f4 ∧
      b = .obj [("Type", .str "AWS::EMR::Step"),
        ("Properties", .obj (f1 ++ f2 ++ f3 ++ f4))] := by
  unfold AWSEMRStep.MarshalJSON AWSEMRStep.encodeProperties at h
  cases h1 : encodePtr cv "ActionOnFailure" x.ActionOnFailure with
  | error e => rw [h1] at h; cases h
  | ok f1 =>
    cases h2 : encodePtr ch "HadoopJarStep" x.HadoopJarStep with
    | error e => rw [h1, h2] at h; cases h
    | ok f2 =>
      cases h3 : encodePtr cv "JobFlowId" x.JobFlowId with
      | error e => rw [h1, h2, h3] at h; cases h
      | ok f3 =>
        cases h4 : encodePtr cv "Name" x.Name with
        | error e => rw [h1, h2, h3, h4] at h; cases h
        | ok f4 =>
          rw [h1, h2, h3, h4] at h
          cases h
          exact ⟨f1, f2, f3, f4, rfl, rfl, rfl, rfl, rfl⟩

/-- Necessity for `AWSEMRStep`: an instance that round-trips through its envelope has
round-tripping values behind its pointer fields. -/
theorem emrStep_roundtrip_necessary {H : Type} (cv : FieldCodec Value) (ch : FieldCodec H)
    (x : AWSEMRStep H) (b : Json) (hm : AWSEMRStep.MarshalJSON cv ch x = .ok b)
    (hu : AWSEMRStep.UnmarshalJSON cv ch AWSEMRStep.zero b = .ret (x, none)) :
    (∀ v, x.ActionOnFailure = some v → cv.RoundTripsNonNullAt v) ∧
    (∀ v, x.HadoopJarStep = some v → ch.RoundTripsNonNullAt v) ∧
    (∀ v, x.JobFlowId = some v → cv.RoundTripsNonNullAt v) ∧
    (∀ v, x.Name = some v → cv.RoundTripsNonNullAt v) := by
  obtain ⟨f1, f2, f3, f4, e1, e2, e3, e4, rfl⟩ := emrStep_marshal_inv cv ch x b hm
  clear hm
  obtain ⟨a1, a2, a3, a4⟩ := x
  rcases encodePtr_inv cv _ _ _ e1 with ⟨h1, rfl⟩ | ⟨v1, j1, h1, m1, rfl⟩ <;>
  rcases encodePtr_inv ch _ _ _ e2 with ⟨h2, rfl⟩ | ⟨v2, j2, h2, m2, rfl⟩ <;>
  rcases encodePtr_inv cv _ _ _ e3 with ⟨h3, rfl⟩ | ⟨v3, j3, h3, m3, rfl⟩ <;>
  rcases encodePtr_inv cv _ _ _ e4 with ⟨h4, rfl⟩ | ⟨v4, j4, h4, m4, rfl⟩ <;>
  simp only at h1 h2 h3 h4 <;> subst h1 h2 h3 h4 <;> clear e1 e2 e3 e4 <;>
  simp +decide only [AWSEMRStep.UnmarshalJSON, jsonUnmarshalEnvelope, decodeMembers,
    decodeEnvelopeMember, decodeString, decodeStructPtr, AWSEMRStep.decodeProperty,
    AWSEMRStep.zero, List.nil_append, List.cons_append, List.append_nil, Option.getD,
    if_true, if_false, ite_true, ite_false] at hu <;>
  (try (have i1 := decodePtr_some_inv cv j1
        generalize decodePtr cv j1 = r1 at hu i1
        rcases r1 with _ | _ | w1 <;> simp at hu)) <;>
  (try (have i2 := decodePtr_some_inv ch j2
        generalize decodePtr ch j2 = r2 at hu i2
        rcases r2 with _ | _ | w2 <;> simp at hu)) <;>
  (try (have i3 := decodePtr_some_inv cv j3
        generalize decodePtr cv j3 = r3 at hu i3
        rcases r3 with _ | _ | w3 <;> simp at hu)) <;>
  (try (have i4 := decodePtr_some_inv cv j4
        generalize decodePtr cv j4 = r4 at hu i4
        rcases r4 with _ | _ | w4 <;> simp at hu)) <;>
  (refine ⟨?_, ?_, ?_, ?_⟩ <;> intro v hv <;>
    simp only [Option.some.injEq, reduceCtorEq] at hv <;> subst hv <;>
    first
    | exact ⟨j1, m1, i1 _ (by simp_all)⟩
    | exact ⟨j2, m2, i2 _ (by simp_all)⟩
    | exact ⟨j3, m3, i3 _ (by simp_all)⟩
    | exact ⟨j4, m4, i4 _ (by simp_all)⟩)

/-- Sufficiency for `AWSLogsMetricFilter`, up to the empty slice: when the values behind its
pointer fields and the elements of its slice round-trip, the instance comes back from its
envelope, a non-nil empty `MetricTransformations` coming back nil. -/
theorem metricFilter_roundtrip {M : Type} (cv : FieldCodec Value) (cm : FieldCodec M)
    (x : AWSLogsMetricFilter M)
    (h1 : ∀ v, x.FilterPattern = some v → cv.RoundTripsNonNullAt v)
    (h2 : ∀ v, x.LogGroupName = some v → cv.RoundTripsNonNullAt v)
    (h3 : ∀ m, m ∈ GoSlice.toList x.MetricTransformations → cm.RoundTripsAt m) :
    ∃ b, AWSLogsMetricFilter.MarshalJSON cv cm x = .ok b ∧
      AWSLogsMetricFilter.UnmarshalJSON cv cm AWSLogsMetricFilter.zero b =
        .ret ({ x with MetricTransformations :=
                  match x.MetricTransformations with
                  | some [] => none
                  | s => s }, none) := by
  obtain ⟨f1, f2, f3⟩ := x
  rcases encodePtr_roundtrip cv "FilterPattern" f1 h1 with ⟨rfl, e1⟩ | ⟨j1, e1, d1⟩ <;>
  rcases encodePtr_roundtrip cv "LogGroupName" f2 h2 with ⟨rfl, e2⟩ | ⟨j2, e2, d2⟩ <;>
  rcases encodeSlice_roundtrip cm "MetricTransformations" f3 h3 with
    ⟨rfl | rfl, e3⟩ | ⟨y, ys, j3, rfl, e3, d3⟩ <;>
  simp +decide [AWSLogsMetricFilter.MarshalJSON, AWSLogsMetricFilter.encodeProperties,
    AWSLogsMetricFilter.UnmarshalJSON, jsonUnmarshalEnvelope, decodeMembers,
    decodeEnvelopeMember, decodeString, decodeStructPtr, AWSLogsMetricFilter.decodeProperty,
    AWSLogsMetricFilter.zero, *]

theorem metricFilter_marshal_inv {M : Type} (cv : FieldCodec Value) (cm : FieldCodec M)
    (x : AWSLogsMetricFilter M) (b : Json)
    (h : AWSLogsMetricFilter.MarshalJSON cv cm x = .ok b) :
    ∃ f1 f2 f3, encodePtr cv "FilterPattern" x.FilterPattern = .ok f1 ∧
      encodePtr cv "LogGroupName" x.LogGroupName = .ok f2 ∧
      encodeSlice cm "MetricTransformations" x.MetricTransformations = .ok f3 ∧
      b = .obj [("Type", .str "AWS::Logs::MetricFilter"),
        ("Properties", .obj (f1 ++ f2 ++ f3))] := by
  unfold AWSLogsMetricFilter.MarshalJSON AWSLogsMetricFilter.encodeProperties at h
  cases h1 : encodePtr cv "FilterPattern" x.FilterPattern with
  | error e => rw [h1] at h; cases h
  | ok f1 =>
    cases h2 : encodePtr cv "LogGroupName" x.LogGroupName with
    | error e => rw [h1, h2] at h; cases h
    | ok f2 =>
      cases h3 : encodeSlice cm "MetricTransformations" x.MetricTransformations with
      | error e => rw [h1, h2, h3] at h; cases h
      | ok f3 =>
        rw [h1, h2, h3] at h
        cases h
        exact ⟨f1, f2, f3, rfl, rfl, rfl, rfl⟩

/-- Necessity for `AWSLogsMetricFilter`: an instance that round-trips through its envelope
has round-tripping values behind its pointer fields, round-tripping elements in its slice,
and a slice that is not empty without being nil. -/
theorem metricFilter_roundtrip_necessary {M : Type} (cv : FieldCodec Value)
    (cm : FieldCodec M) (x : AWSLogsMetricFilter M) (b : Json)
    (hm : AWSLogsMetricFilter.MarshalJSON cv cm x = .ok b)
    (hu : AWSLogsMetricFilter.UnmarshalJSON cv cm AWSLogsMetricFilter.zero b = .ret (x, none)) :
    (∀ v, x.FilterPattern = some v → cv.RoundTripsNonNullAt v) ∧
    (∀ v, x.LogGroupName = some v → cv.RoundTripsNonNullAt v) ∧
    (∀ m, m ∈ GoSlice.toList x.MetricTransformations → cm.RoundTripsAt m) ∧
    x.MetricTransformations ≠ some [] := by
  obtain ⟨f1, f2, f3, e1, e2, e3, rfl⟩ := metricFilter_marshal_inv cv cm x b hm
  clear hm
  obtain ⟨a1, a2, a3⟩ := x
  rcases encodePtr_inv cv _ _ _ e1 with ⟨h1, rfl⟩ | ⟨v1, j1, h1, m1, rfl⟩ <;>
  rcases encodePtr_inv cv _ _ _ e2 with ⟨h2, rfl⟩ | ⟨v2, j2, h2, m2, rfl⟩ <;>
  rcases encodeSlice_inv cm _ _ _ e3 with ⟨h3 | h3, rfl⟩ | ⟨y, ys, js, h3, m3, rfl⟩ <;>
  simp only at h1 h2 h3 <;> subst h1 h2 h3 <;> clear e1 e2 e3 <;>
  simp +decide only [AWSLogsMetricFilter.UnmarshalJSON, jsonUnmarshalEnvelope, decodeMembers,
    decodeEnvelopeMember, decodeString, decodeStructPtr, AWSLogsMetricFilter.decodeProperty,
    AWSLogsMetricFilter.zero, List.nil_append, List.cons_append, List.append_nil,
    Option.getD, if_true, if_false, ite_true, ite_false] at hu <;>
  (try (have i1 := decodePtr_some_inv cv j1
        generalize decodePtr cv j1 = r1 at hu i1
        rcases r1 with _ | _ | w1 <;> simp at hu)) <;>
  (try (have i2 := decodePtr_some_inv cv j2
        generalize decodePtr cv j2 = r2 at hu i2
        rcases r2 with _ | _ | w2 <;> simp at hu)) <;>
  (try (have i3 := decodeSlice_arr_inv cm js
        generalize decodeSlice cm (.arr js) = r3 at hu i3
        rcases r3 with _ | o3 <;> simp at hu)) <;>
  (try simp at hu) <;>
  (refine ⟨?_, ?_, ?_, ?_⟩
   · intro v hv
     first
     | (simp at hv; done)
     | (simp only [Option.some.injEq] at hv; subst hv; exact ⟨j1, m1, i1 _ (by simp_all)⟩)
   · intro v hv
     first
     | (simp at hv; done)
     | (simp only [Option.some.injEq] at hv; subst hv; exact ⟨j2, m2, i2 _ (by simp_all)⟩)
   · intro m hm
     first
     | (simp [GoSlice.toList] at hm; done)
     | (obtain ⟨xs, hx1, hx2⟩ := i3 o3 rfl
        have ho : o3 = some (y :: ys) := by simp_all
        rw [ho] at hx1
        cases hx1
        exact encodeElems_inv cm _ js m3 hx2 m hm)
   · simp)

theorem sampleValueCodec_roundTripsNonNull : sampleValueCodec.RoundTripsNonNull := by
  intro x
  cases x with
  | literal s => exact ⟨.str s, rfl, by simp, rfl⟩
  | reference n => exact ⟨.obj [("Ref", .str n)], rfl, by simp, by simp [sampleValueCodec]⟩
  | substitution t =>
    exact ⟨.obj [("Fn::Sub", .str t)], rfl, by simp, by simp +decide [sampleValueCodec]⟩

theorem stringCodec_roundTripsNonNull : stringCodec.RoundTripsNonNull :=
  fun s => ⟨.str s, rfl, by simp, rfl⟩

theorem stringCodec_roundTrips : stringCodec.RoundTrips :=
  fun s => ⟨.str s, rfl, rfl⟩

/-- C1 (as stated, refuted). The `AWSLogsMetricFilter` whose `MetricTransformations` is
present but empty marshals to an envelope with empty `Properties`, and unmarshalling that
envelope into a fresh instance succeeds with the zero instance, whose `MetricTransformations`
is nil: the instance is not restored field for field. -/
theorem roundtrip_loses_empty_slice :
    AWSLogsMetricFilter.MarshalJSON sampleValueCodec stringCodec emptySliceFilter =
      .ok (.obj [("Type", .str "AWS::Logs::MetricFilter"), ("Properties", .obj [])]) ∧
    AWSLogsMetricFilter.UnmarshalJSON sampleValueCodec stringCodec AWSLogsMetricFilter.zero
      (.obj [("Type", .str "AWS::Logs::MetricFilter"), ("Properties", .obj [])]) =
      .ret (AWSLogsMetricFilter.zero, none) ∧
    (AWSLogsMetricFilter.zero : AWSLogsMetricFilter String) ≠ emptySliceFilter := by
  refine ⟨rfl, ?_, by decide⟩
  simp +decide [AWSLogsMetricFilter.UnmarshalJSON, jsonUnmarshalEnvelope, decodeMembers,
    decodeEnvelopeMember, decodeString, decodeStructPtr, AWSLogsMetricFilter.zero]

/-- C1 (amended). Envelope round trip, exactly when it holds. For every `AWSEMRStep` `x`:
`MarshalJSON(x)` succeeds and `UnmarshalJSON` of the result into a fresh instance succeeds and
yields `x` if and only if the value behind each non-nil pointer field of `x` encodes with its
type's codec to a document other than `null` that decodes to it. For every
`AWSLogsMetricFilter` `x`: the same holds if and only if, in addition, each element of
`MetricTransformations` encodes to a document that decodes to it and `MetricTransformations`
is nil or not empty. When `MetricTransformations` is present but empty and the fields
round-trip, the round trip succeeds and yields `x` with `MetricTransformations` nil. -/
theorem envelope_roundtrip {H M : Type} (cv : FieldCodec Value) (ch : FieldCodec H)
    (cm : FieldCodec M) :
    (∀ x : AWSEMRStep H,
      (∃ b, AWSEMRStep.MarshalJSON cv ch x = .ok b ∧
        AWSEMRStep.UnmarshalJSON cv ch AWSEMRStep.zero b = .ret (x, none)) ↔
      AWSEMRStep.FieldsRoundTrip cv ch x) ∧
    (∀ x : AWSLogsMetricFilter M,
      (∃ b, AWSLogsMetricFilter.MarshalJSON cv cm x = .ok b ∧
        AWSLogsMetricFilter.UnmarshalJSON cv cm AWSLogsMetricFilter.zero b = .ret (x, none)) ↔
      (AWSLogsMetricFilter.FieldsRoundTrip cv cm x ∧ x.MetricTransformations ≠ some [])) ∧
    (∀ x : AWSLogsMetricFilter M, x.MetricTransformations = some [] →
      AWSLogsMetricFilter.FieldsRoundTrip cv cm x →
      ∃ b, AWSLogsMetricFilter.MarshalJSON cv cm x = .ok b ∧
        AWSLogsMetricFilter.UnmarshalJSON cv cm AWSLogsMetricFilter.zero b =
          .ret ({ x with MetricTransformations := none }, none)) := by
  refine ⟨fun x => ⟨?_, ?_⟩, fun x => ⟨?_, ?_⟩, ?_⟩
  · rintro ⟨b, hm, hu⟩
    exact emrStep_roundtrip_necessary cv ch x b hm hu
  · rintro ⟨h1, h2, h3, h4⟩
    exact emrStep_roundtrip cv ch x h1 h2 h3 h4
  · rintro ⟨b, hm, hu⟩
    obtain ⟨h1, h2, h3, h4⟩ := metricFilter_roundtrip_necessary cv cm x b hm hu
    exact ⟨⟨h1, h2, h3⟩, h4⟩
  · rintro ⟨⟨h1, h2, h3⟩, hx⟩
    obtain ⟨b, e1, e2⟩ := metricFilter_roundtrip cv cm x h1 h2 h3
    refine ⟨b, e1, ?_⟩
    rw [e2]
    obtain ⟨f1, f2, f3⟩ := x
    cases f3 with
    | none => rfl
    | some xs =>
      cases xs with
      | nil => exact absurd rfl hx
      | cons y ys => rfl
  · rintro x hx ⟨h1, h2, h3⟩
    obtain ⟨b, e1, e2⟩ := metricFilter_roundtrip cv cm x h1 h2 h3
    refine ⟨b, e1, ?_⟩
    rw [e2]
    obtain ⟨f1, f2, f3⟩ := x
    cases hx
    rfl

/-- Witness for C1: with the sample codecs the fields of the sample step, of the sample filter
and of the filter with the empty slice round-trip, and the round trip holds at the sample
step, at the sample filter and, up to the empty slice, at the filter with the empty slice. -/
theorem envelope_roundtrip_witness :
    AWSEMRStep.FieldsRoundTrip sampleValueCodec stringCodec sampleStep ∧
    (AWSLogsMetricFilter.FieldsRoundTrip sampleValueCodec stringCodec sampleFilter ∧
      sampleFilter.MetricTransformations ≠ some []) ∧
    emptySliceFilter.MetricTransformations = some [] ∧
    AWSLogsMetricFilter.FieldsRoundTrip sampleValueCodec stringCodec emptySliceFilter ∧
    (∃ b, AWSEMRStep.MarshalJSON sampleValueCodec stringCodec sampleStep = .ok b ∧
      AWSEMRStep.UnmarshalJSON sampleValueCodec stringCodec AWSEMRStep.zero b =
        .ret (sampleStep, none)) ∧
    (∃ b, AWSLogsMetricFilter.MarshalJSON sampleValueCodec stringCodec sampleFilter = .ok b ∧
      AWSLogsMetricFilter.UnmarshalJSON sampleValueCodec stringCodec
        AWSLogsMetricFilter.zero b = .ret (sampleFilter, none)) ∧
    (∃ b, AWSLogsMetricFilter.MarshalJSON sampleValueCodec stringCodec emptySliceFilter =
        .ok b ∧
      AWSLogsMetricFilter.UnmarshalJSON sampleValueCodec stringCodec
        AWSLogsMetricFilter.zero b =
          .ret ({ emptySliceFilter with MetricTransformations := none }, none)) :=
  have h := @envelope_roundtrip String String sampleValueCodec stringCodec stringCodec
  have hs : AWSEMRStep.FieldsRoundTrip sampleValueCodec stringCodec sampleStep :=
    ⟨fun v _ => sampleValueCodec_roundTripsNonNull v,
     fun v _ => stringCodec_roundTripsNonNull v,
     fun v _ => sampleValueCodec_roundTripsNonNull v,
     fun v _ => sampleValueCodec_roundTripsNonNull v⟩
  have hf : ∀ x : AWSLogsMetricFilter String,
      AWSLogsMetricFilter.FieldsRoundTrip sampleValueCodec stringCodec x :=
    fun _ => ⟨fun v _ => sampleValueCodec_roundTripsNonNull v,
      fun v _ => sampleValueCodec_roundTripsNonNull v,
      fun m _ => stringCodec_roundTrips m⟩
  ⟨hs, ⟨hf sampleFilter, (by decide)⟩, rfl, hf emptySliceFilter,
    (h.1 sampleStep).2 hs, (h.2.1 sampleFilter).2 ⟨hf sampleFilter, (by decide)⟩,
    h.2.2 emptySliceFilter rfl (hf emptySliceFilter)⟩

/-! ## The registry -/

theorem decodeMembers_error_of_mem {σ : Type} (step : σ → String → Json → Except String σ)
    (k : String) (v : Json) (hstep : ∀ s, ∃ e, step s k v = .error e)
    (kvs : List (String × Json)) (hmem : (k, v) ∈ kvs) (s : σ) :
    ∃ e, decodeMembers step s kvs = .error e := by
  induction kvs generalizing s with
  | nil => cases hmem
  | cons kv rest ih =>
    obtain ⟨k', v'⟩ := kv
    rcases List.mem_cons.mp hmem with h | h
    · cases h
      obtain ⟨e, he⟩ := hstep s
      exact ⟨e, by simp [decodeMembers, he]⟩
    · cases hs : step s k' v' with
      | error e => exact ⟨e, by simp [decodeMembers, hs]⟩
      | ok s' =>
        obtain ⟨e, he⟩ := ih h s'
        exact ⟨e, by simp [decodeMembers, hs, he]⟩

/-- A key that matches the field `Properties` does not match the field `Type`. -/
theorem fieldMatches_Properties_not_Type (k : String) (h : fieldMatches "Properties" k = true) :
    fieldMatches "Type" k = false := by
  cases h2 : fieldMatches "Type" k with
  | false => rfl
  | true =>
    have e1 := eq_of_beq h
    have e2 := eq_of_beq h2
    exact absurd (e1.symm.trans e2) (by decide)

/-- A member for the field `Properties` that is neither an object nor `null` makes the
decoding of the envelope fail. -/
theorem jsonUnmarshalEnvelope_malformed {P : Type} (zero : P)
    (decodeProperty : P → String → Json → Except String P)
    (kvs : List (String × Json)) (k : String) (v : Json) (hmem : (k, v) ∈ kvs)
    (hk : fieldMatches "Properties" k = true) (hnull : v ≠ .null) (hobj : ∀ m, v ≠ .obj m) :
    ∃ e, jsonUnmarshalEnvelope zero decodeProperty (.obj kvs) = .error e := by
  have hstep : ∀ res : Envelope P, ∃ e,
      decodeEnvelopeMember zero decodeProperty res k v = .error e := by
    intro res
    have hT := fieldMatches_Properties_not_Type k hk
    cases v with
    | null => exact absurd rfl hnull
    | obj m => exact absurd rfl (hobj m)
    | bool b =>
      exact ⟨"json: cannot unmarshal value into Go struct field of struct type",
        by simp [decodeEnvelopeMember, hT, hk, decodeStructPtr]⟩
    | num n =>
      exact ⟨"json: cannot unmarshal value into Go struct field of struct type",
        by simp [decodeEnvelopeMember, hT, hk, decodeStructPtr]⟩
    | str s =>
      exact ⟨"json: cannot unmarshal value into Go struct field of struct type",
        by simp [decodeEnvelopeMember, hT, hk, decodeStructPtr]⟩
    | arr xs =>
      exact ⟨"json: cannot unmarshal value into Go struct field of struct type",
        by simp [decodeEnvelopeMember, hT, hk, decodeStructPtr]⟩
  obtain ⟨e, he⟩ := decodeMembers_error_of_mem _ k v hstep kvs hmem
    { Type_ := "", Properties := none }
  exact ⟨e, by simp [jsonUnmarshalEnvelope, he]⟩

theorem jsonMarshalFields_mem (m : List (String × Dyn)) (kvs : List (String × Json))
    (h : jsonMarshalFields m = .ok kvs) (k : String) (d : Dyn) (hmem : (k, d) ∈ m) :
    ∃ j, jsonMarshalDyn d = .ok j ∧ (k, j) ∈ kvs := by
  induction m generalizing kvs with
  | nil => cases hmem
  | cons kd rest ih =>
    obtain ⟨k', d'⟩ := kd
    rw [jsonMarshalFields] at h
    cases hd : jsonMarshalDyn d' with
    | error e => rw [hd] at h; cases h
    | ok j' =>
      rw [hd] at h
      cases hr : jsonMarshalFields rest with
      | error e => rw [hr] at h; cases h
      | ok js =>
        rw [hr] at h
        cases h
        rcases List.mem_cons.mp hmem with h1 | h1
        · cases h1
          exact ⟨j', hd, List.mem_cons_self _ _⟩
        · obtain ⟨j, hj, hjm⟩ := ih js hr h1
          exact ⟨j, hj, List.mem_cons_of_mem _ hjm⟩

/-- What `json.Marshal` makes of a map is an object. -/
theorem jsonMarshalMap_ok (m : List (String × Dyn)) (b : Json) (h : jsonMarshalMap m = .ok b) :
    ∃ kvs, b = .obj kvs ∧ jsonMarshalFields m = .ok kvs := by
  unfold jsonMarshalMap at h
  rw [jsonMarshalDyn] at h
  cases hf : jsonMarshalFields m with
  | error e => rw [hf] at h; cases h
  | ok kvs => rw [hf] at h; cases h; exact ⟨kvs, rfl, rfl⟩

theorem jsonMarshalDyn_scalar (d : Dyn) (j : Json) (h : jsonMarshalDyn d = .ok j)
    (hd : d.isScalarOrArray = true) : j ≠ .null ∧ ∀ m, j ≠ .obj m := by
  cases d with
  | nil => cases hd
  | map kvs => cases hd
  | other enc => cases hd
  | bool b => rw [jsonMarshalDyn] at h; cases h; simp
  | num n => rw [jsonMarshalDyn] at h; cases h; simp
  | str s => rw [jsonMarshalDyn] at h; cases h; simp
  | arr xs =>
    rw [jsonMarshalDyn] at h
    cases hl : jsonMarshalList xs with
    | error e => rw [hl] at h; cases h
    | ok js => rw [hl] at h; cases h; simp

/-- On an object `AWSEMRStep.UnmarshalJSON` returns (it does not panic). -/
theorem emrStep_UnmarshalJSON_obj {H : Type} (cv : FieldCodec Value) (ch : FieldCodec H)
    (r : AWSEMRStep H) (kvs : List (String × Json)) :
    ∃ x e, AWSEMRStep.UnmarshalJSON cv ch r (.obj kvs) = .ret (x, e) := by
  cases hd : decodeMembers
      (decodeEnvelopeMember AWSEMRStep.zero (AWSEMRStep.decodeProperty cv ch))
      { Type_ := "", Properties := none } kvs with
  | error e =>
    exact ⟨r, some e, by simp [AWSEMRStep.UnmarshalJSON, jsonUnmarshalEnvelope, hd]⟩
  | ok res =>
    cases hp : res.Properties with
    | none =>
      exact ⟨r, none, by simp [AWSEMRStep.UnmarshalJSON, jsonUnmarshalEnvelope, hd, hp]⟩
    | some p =>
      exact ⟨p, none, by simp [AWSEMRStep.UnmarshalJSON, jsonUnmarshalEnvelope, hd, hp]⟩

/-- On an object `AWSLogsMetricFilter.UnmarshalJSON` returns (it does not panic). -/
theorem metricFilter_UnmarshalJSON_obj {M : Type} (cv : FieldCodec Value)
    (cm : FieldCodec M) (r : AWSLogsMetricFilter M) (kvs : List (String × Json)) :
    ∃ x e, AWSLogsMetricFilter.UnmarshalJSON cv cm r (.obj kvs) = .ret (x, e) := by
  cases hd : decodeMembers
      (decodeEnvelopeMember AWSLogsMetricFilter.zero (AWSLogsMetricFilter.decodeProperty cv cm))
      { Type_ := "", Properties := none } kvs with
  | error e =>
    exact ⟨r, some e, by simp [AWSLogsMetricFilter.UnmarshalJSON, jsonUnmarshalEnvelope, hd]⟩
  | ok res =>
    cases hp : res.Properties with
    | none =>
      exact ⟨r, none,
        by simp [AWSLogsMetricFilter.UnmarshalJSON, jsonUnmarshalEnvelope, hd, hp]⟩
    | some p =>
      exact ⟨p, none,
        by simp [AWSLogsMetricFilter.UnmarshalJSON, jsonUnmarshalEnvelope, hd, hp]⟩
/-- The loop of `GetAll...Resources` returns when the type switch does, and the result maps a
name to the instance picked for its entry. -/
theorem rangeResources_spec {H M β : Type} (pick : Resource H M → Outcome (Option β))
    (hpick : ∀ u, ∃ o, pick u = .ret o)
    (l : List (Sigma (fun _ : String => Resource H M))) (hl : l.NodupKeys)
    (acc : AList (fun _ : String => β)) :
    ∃ m, rangeResources pick l acc = .ret m ∧
      ∀ n, m.lookup n =
        match l.dlookup n with
        | some u =>
          (match pick u with
           | .ret (some v) => some v
           | _ => acc.lookup n)
        | none => acc.lookup n := by
  induction l generalizing acc with
  | nil => exact ⟨acc, rfl, fun n => rfl⟩
  | cons e rest ih =>
    obtain ⟨k, u⟩ := e
    have hk : k ∉ rest.keys := (List.nodupKeys_cons.mp hl).1
    have hrest : rest.NodupKeys := (List.nodupKeys_cons.mp hl).2
    have hnone : rest.dlookup k = none := List.dlookup_eq_none.mpr hk
    obtain ⟨o, ho⟩ := hpick u
    cases o with
    | none =>
      obtain ⟨m, hm, hlook⟩ := ih hrest acc
      refine ⟨m, by simp [rangeResources, ho, hm], ?_⟩
      intro n
      rw [hlook n]
      by_cases hn : n = k
      · subst hn
        simp [hnone, ho]
      · rw [List.dlookup_cons_ne _ _ hn]
    | some v =>
      obtain ⟨m, hm, hlook⟩ := ih hrest (AList.insert k v acc)
      refine ⟨m, by simp [rangeResources, ho, hm], ?_⟩
      intro n
      rw [hlook n]
      by_cases hn : n = k
      · subst hn
        simp [hnone, ho]
      · rw [List.dlookup_cons_ne _ _ hn, AList.lookup_insert_ne hn]

/-- The type switch for `AWSEMRStep` returns, and it picks `x` exactly when the entry is `x`
held by value, or an untyped entry whose `Type` is the kind's identifier and whose envelope
decodes to `x`. -/
theorem emrStep_typeSwitch_spec {H M : Type} (cv : FieldCodec Value) (ch : FieldCodec H)
    (u : Resource H M) :
    ∃ o, AWSEMRStep.typeSwitch cv ch u = .ret o ∧
      ∀ x, o = some x ↔
        (u = .emrStep x ∨
          ∃ m b, u = .untyped m ∧ m.lookup "Type" = some (.str "AWS::EMR::Step") ∧
            jsonMarshalMap m = .ok b ∧
            AWSEMRStep.UnmarshalJSON cv ch AWSEMRStep.zero b = .ret (x, none)) := by
  cases u with
  | nil => exact ⟨none, rfl, by simp⟩
  | logsMetricFilter y => exact ⟨none, rfl, by simp⟩
  | structVal fs => exact ⟨none, rfl, by simp⟩
  | ptr a => exact ⟨none, rfl, by simp⟩
  | nilPtr => exact ⟨none, rfl, by simp⟩
  | emrStep y => exact ⟨some y, rfl, by simp [eq_comm]⟩
  | untyped m =>
    cases hl : m.lookup "Type" with
    | none => exact ⟨none, by simp [AWSEMRStep.typeSwitch, hl], by simp [hl]⟩
    | some d =>
      by_cases hd : d = .str "AWS::EMR::Step"
      · subst hd
        cases hb : jsonMarshalMap m with
        | error e =>
          exact ⟨none, by simp [AWSEMRStep.typeSwitch, hl, Dyn.eqString, hb], by simp [hb]⟩
        | ok b =>
          obtain ⟨kvs, rfl, -⟩ := jsonMarshalMap_ok m b hb
          obtain ⟨y, e, hy⟩ := emrStep_UnmarshalJSON_obj cv ch AWSEMRStep.zero kvs
          cases e with
          | none =>
            exact ⟨some y, by simp [AWSEMRStep.typeSwitch, hl, Dyn.eqString, hb, hy],
              by simp [hl, hb, hy, eq_comm]⟩
          | some e =>
            exact ⟨none, by simp [AWSEMRStep.typeSwitch, hl, Dyn.eqString, hb, hy],
              by simp [hl, hb, hy]⟩
      · refine ⟨none, ?_, by simp [hl, hd]⟩
        cases d <;> simp_all [AWSEMRStep.typeSwitch, Dyn.eqString]

/-- The type switch for `AWSLogsMetricFilter` returns, and it picks `x` exactly when the entry
is `x` held by value, or an untyped entry whose `Type` is the kind's identifier and whose
envelope decodes to `x`. -/
theorem metricFilter_typeSwitch_spec {H M : Type} (cv : FieldCodec Value)
    (cm : FieldCodec M) (u : Resource H M) :
    ∃ o, AWSLogsMetricFilter.typeSwitch cv cm u = .ret o ∧
      ∀ x, o = some x ↔
        (u = .logsMetricFilter x ∨
          ∃ m b, u = .untyped m ∧ m.lookup "Type" = some (.str "AWS::Logs::MetricFilter") ∧
            jsonMarshalMap m = .ok b ∧
            AWSLogsMetricFilter.UnmarshalJSON cv cm AWSLogsMetricFilter.zero b =
              .ret (x, none)) := by
  cases u with
  | nil => exact ⟨none, rfl, by simp⟩
  | emrStep y => exact ⟨none, rfl, by simp⟩
  | structVal fs => exact ⟨none, rfl, by simp⟩
  | ptr a => exact ⟨none, rfl, by simp⟩
  | nilPtr => exact ⟨none, rfl, by simp⟩
  | logsMetricFilter y => exact ⟨some y, rfl, by simp [eq_comm]⟩
  | untyped m =>
    cases hl : m.lookup "Type" with
    | none => exact ⟨none, by simp [AWSLogsMetricFilter.typeSwitch, hl], by simp [hl]⟩
    | some d =>
      by_cases hd : d = .str "AWS::Logs::MetricFilter"
      · subst hd
        cases hb : jsonMarshalMap m with
        | error e =>
          exact ⟨none, by simp [AWSLogsMetricFilter.typeSwitch, hl, Dyn.eqString, hb],
            by simp [hb]⟩
        | ok b =>
          obtain ⟨kvs, rfl, -⟩ := jsonMarshalMap_ok m b hb
          obtain ⟨y, e, hy⟩ :=
            metricFilter_UnmarshalJSON_obj cv cm AWSLogsMetricFilter.zero kvs
          cases e with
          | none =>
            exact ⟨some y, by simp [AWSLogsMetricFilter.typeSwitch, hl, Dyn.eqString, hb, hy],
              by simp [hl, hb, hy, eq_comm]⟩
          | some e =>
            exact ⟨none, by simp [AWSLogsMetricFilter.typeSwitch, hl, Dyn.eqString, hb, hy],
              by simp [hl, hb, hy]⟩
      · refine ⟨none, ?_, by simp [hl, hd]⟩
        cases d <;> simp_all [AWSLogsMetricFilter.typeSwitch, Dyn.eqString]

/-- `GetAllAWSEMRStepResources` returns, and maps a name to `x` exactly when the type switch
picks `x` for the entry of that name. -/
theorem GetAllAWSEMRStepResources_spec {H M : Type} (cv : FieldCodec Value)
    (ch : FieldCodec H) (t : Template H M) :
    ∃ all, t.GetAllAWSEMRStepResources cv ch = .ret all ∧
      ∀ n x, all.lookup n = some x ↔
        ∃ u, t.Resources.lookup n = some u ∧ AWSEMRStep.typeSwitch cv ch u = .ret (some x) := by
  obtain ⟨all, hall, hlook⟩ := rangeResources_spec (AWSEMRStep.typeSwitch cv ch)
    (fun u => (emrStep_typeSwitch_spec cv ch u).imp fun _ h => h.1)
    t.Resources.entries t.Resources.nodupKeys ∅
  refine ⟨all, hall, ?_⟩
  intro n x
  rw [hlook n]
  have key : t.Resources.lookup n = List.dlookup n t.Resources.entries := rfl
  rw [key]
  cases hl : List.dlookup n t.Resources.entries with
  | none => simp
  | some u =>
    obtain ⟨o, ho, -⟩ := @emrStep_typeSwitch_spec H M cv ch u
    cases o with
    | none => simp [ho]
    | some v => simp [ho]

/-- `GetAllAWSLogsMetricFilterResources` returns, and maps a name to `x` exactly when the type
switch picks `x` for the entry of that name. -/
theorem GetAllAWSLogsMetricFilterResources_spec {H M : Type} (cv : FieldCodec Value)
    (cm : FieldCodec M) (t : Template H M) :
    ∃ all, t.GetAllAWSLogsMetricFilterResources cv cm = .ret all ∧
      ∀ n x, all.lookup n = some x ↔
        ∃ u, t.Resources.lookup n = some u ∧
          AWSLogsMetricFilter.typeSwitch cv cm u = .ret (some x) := by
  obtain ⟨all, hall, hlook⟩ := rangeResources_spec (AWSLogsMetricFilter.typeSwitch cv cm)
    (fun u => (metricFilter_typeSwitch_spec cv cm u).imp fun _ h => h.1)
    t.Resources.entries t.Resources.nodupKeys ∅
  refine ⟨all, hall, ?_⟩
  intro n x
  rw [hlook n]
  have key : t.Resources.lookup n = List.dlookup n t.Resources.entries := rfl
  rw [key]
  cases hl : List.dlookup n t.Resources.entries with
  | none => simp
  | some u =>
    obtain ⟨o, ho, -⟩ := @metricFilter_typeSwitch_spec H M cv cm u
    cases o with
    | none => simp [ho]
    | some v => simp [ho]

/-- `GetAWSEMRStepWithName` returns the instance the type switch picks, and the error
`resource not found` with the zero instance when the name is absent or nothing is picked. -/
theorem GetAWSEMRStepWithName_spec {H M : Type} (cv : FieldCodec Value) (ch : FieldCodec H)
    (t : Template H M) (n : String) :
    (∀ u x, t.Resources.lookup n = some u → AWSEMRStep.typeSwitch cv ch u = .ret (some x) →
      t.GetAWSEMRStepWithName cv ch n = .ret (x, none)) ∧
    (∀ u, t.Resources.lookup n = some u → AWSEMRStep.typeSwitch cv ch u = .ret none →
      t.GetAWSEMRStepWithName cv ch n = .ret (AWSEMRStep.zero, some "resource not found")) ∧
    (t.Resources.lookup n = none →
      t.GetAWSEMRStepWithName cv ch n = .ret (AWSEMRStep.zero, some "resource not found")) := by
  refine ⟨?_, ?_, ?_⟩
  · intro u x hl hs
    simp [Template.GetAWSEMRStepWithName, hl, hs]
  · intro u hl hs
    simp [Template.GetAWSEMRStepWithName, hl, hs]
  · intro hl
    simp [Template.GetAWSEMRStepWithName, hl]

/-- `GetAWSLogsMetricFilterWithName` returns the instance the type switch picks, and the error
`resource not found` with the zero instance when the name is absent or nothing is picked. -/
theorem GetAWSLogsMetricFilterWithName_spec {H M : Type} (cv : FieldCodec Value)
    (cm : FieldCodec M) (t : Template H M) (n : String) :
    (∀ u x, t.Resources.lookup n = some u →
      AWSLogsMetricFilter.typeSwitch cv cm u = .ret (some x) →
      t.GetAWSLogsMetricFilterWithName cv cm n = .ret (x, none)) ∧
    (∀ u, t.Resources.lookup n = some u → AWSLogsMetricFilter.typeSwitch cv cm u = .ret none →
      t.GetAWSLogsMetricFilterWithName cv cm n =
        .ret (AWSLogsMetricFilter.zero, some "resource not found")) ∧
    (t.Resources.lookup n = none →
      t.GetAWSLogsMetricFilterWithName cv cm n =
        .ret (AWSLogsMetricFilter.zero, some "resource not found")) := by
  refine ⟨?_, ?_, ?_⟩
  · intro u x hl hs
    simp [Template.GetAWSLogsMetricFilterWithName, hl, hs]
  · intro u hl hs
    simp [Template.GetAWSLogsMetricFilterWithName, hl, hs]
  · intro hl
    simp [Template.GetAWSLogsMetricFilterWithName, hl]

/-- The type switch for `AWSEMRStep` picks `x` exactly for an entry that is `x` held by value
or an untyped entry of the kind's `Type` whose envelope decodes to `x`. -/
theorem emrStep_typeSwitch_iff {H M : Type} (cv : FieldCodec Value) (ch : FieldCodec H)
    (u : Resource H M) (x : AWSEMRStep H) :
    AWSEMRStep.typeSwitch cv ch u = .ret (some x) ↔
      (u = .emrStep x ∨
        ∃ m b, u = .untyped m ∧ m.lookup "Type" = some (.str "AWS::EMR::Step") ∧
          jsonMarshalMap m = .ok b ∧
          AWSEMRStep.UnmarshalJSON cv ch AWSEMRStep.zero b = .ret (x, none)) := by
  obtain ⟨o, ho, hiff⟩ := emrStep_typeSwitch_spec cv ch u
  rw [ho, ← hiff x]
  constructor
  · intro h; cases h; rfl
  · intro h; rw [h]

/-- Bulk scan and by-name lookup of `AWSEMRStep`, characterised on the entries of the
template. -/
theorem emrStep_registry_spec {H M : Type} (cv : FieldCodec Value) (ch : FieldCodec H)
    (t : Template H M) :
    ∃ all, t.GetAllAWSEMRStepResources cv ch = .ret all ∧
      ∀ n,
        (∀ x, all.lookup n = some x ↔
          ∃ u, t.Resources.lookup n = some u ∧
            AWSEMRStep.typeSwitch cv ch u = .ret (some x)) ∧
        (∀ x, (∃ u, t.Resources.lookup n = some u ∧
            AWSEMRStep.typeSwitch cv ch u = .ret (some x)) →
          t.GetAWSEMRStepWithName cv ch n = .ret (x, none)) ∧
        ((∀ x, ¬ ∃ u, t.Resources.lookup n = some u ∧
            AWSEMRStep.typeSwitch cv ch u = .ret (some x)) →
          all.lookup n = none ∧
          t.GetAWSEMRStepWithName cv ch n =
            .ret (AWSEMRStep.zero, some "resource not found")) := by
  obtain ⟨all, hall, hlook⟩ := GetAllAWSEMRStepResources_spec cv ch t
  refine ⟨all, hall, fun n => ⟨hlook n, ?_, ?_⟩⟩
  · rintro x ⟨u, hl, hs⟩
    exact (GetAWSEMRStepWithName_spec cv ch t n).1 u x hl hs
  · intro hno
    constructor
    · cases hx : all.lookup n with
      | none => rfl
      | some x => exact absurd ((hlook n x).mp hx) (hno x)
    · cases hl : t.Resources.lookup n with
      | none => exact (GetAWSEMRStepWithName_spec cv ch t n).2.2 hl
      | some u =>
        obtain ⟨o, ho, -⟩ := emrStep_typeSwitch_spec cv ch u
        cases o with
        | none => exact (GetAWSEMRStepWithName_spec cv ch t n).2.1 u hl ho
        | some x => exact absurd ⟨u, hl, ho⟩ (hno x)

/-- The type switch for `AWSLogsMetricFilter` picks `x` exactly for an entry that is `x` held by value
or an untyped entry of the kind's `Type` whose envelope decodes to `x`. -/
theorem metricFilter_typeSwitch_iff {H M : Type} (cv : FieldCodec Value) (cm : FieldCodec M)
    (u : Resource H M) (x : AWSLogsMetricFilter M) :
    AWSLogsMetricFilter.typeSwitch cv cm u = .ret (some x) ↔
      (u = .logsMetricFilter x ∨
        ∃ m b, u = .untyped m ∧ m.lookup "Type" = some (.str "AWS::Logs::MetricFilter") ∧
          jsonMarshalMap m = .ok b ∧
          AWSLogsMetricFilter.UnmarshalJSON cv cm AWSLogsMetricFilter.zero b = .ret (x, none)) := by
  obtain ⟨o, ho, hiff⟩ := metricFilter_typeSwitch_spec cv cm u
  rw [ho, ← hiff x]
  constructor
  · intro h; cases h; rfl
  · intro h; rw [h]

/-- Bulk scan and by-name lookup of `AWSLogsMetricFilter`, characterised on the entries of the
template. -/
theorem metricFilter_registry_spec {H M : Type} (cv : FieldCodec Value) (cm : FieldCodec M)
    (t : Template H M) :
    ∃ all, t.GetAllAWSLogsMetricFilterResources cv cm = .ret all ∧
      ∀ n,
        (∀ x, all.lookup n = some x ↔
          ∃ u, t.Resources.lookup n = some u ∧
            AWSLogsMetricFilter.typeSwitch cv cm u = .ret (some x)) ∧
        (∀ x, (∃ u, t.Resources.lookup n = some u ∧
            AWSLogsMetricFilter.typeSwitch cv cm u = .ret (some x)) →
          t.GetAWSLogsMetricFilterWithName cv cm n = .ret (x, none)) ∧
        ((∀ x, ¬ ∃ u, t.Resources.lookup n = some u ∧
            AWSLogsMetricFilter.typeSwitch cv cm u = .ret (some x)) →
          all.lookup n = none ∧
          t.GetAWSLogsMetricFilterWithName cv cm n =
            .ret (AWSLogsMetricFilter.zero, some "resource not found")) := by
  obtain ⟨all, hall, hlook⟩ := GetAllAWSLogsMetricFilterResources_spec cv cm t
  refine ⟨all, hall, fun n => ⟨hlook n, ?_, ?_⟩⟩
  · rintro x ⟨u, hl, hs⟩
    exact (GetAWSLogsMetricFilterWithName_spec cv cm t n).1 u x hl hs
  · intro hno
    constructor
    · cases hx : all.lookup n with
      | none => rfl
      | some x => exact absurd ((hlook n x).mp hx) (hno x)
    · cases hl : t.Resources.lookup n with
      | none => exact (GetAWSLogsMetricFilterWithName_spec cv cm t n).2.2 hl
      | some u =>
        obtain ⟨o, ho, -⟩ := metricFilter_typeSwitch_spec cv cm u
        cases o with
        | none => exact (GetAWSLogsMetricFilterWithName_spec cv cm t n).2.1 u hl ho
        | some x => exact absurd ⟨u, hl, ho⟩ (hno x)

/-- An untyped entry with a `Properties` member that is a scalar or an array does not decode
as `AWSEMRStep`. -/
theorem emrStep_malformed_not_decoded {H : Type} (cv : FieldCodec Value)
    (ch : FieldCodec H) (m : List (String × Dyn)) (k : String) (d : Dyn) (hmem : (k, d) ∈ m)
    (hk : fieldMatches "Properties" k = true) (hd : d.isScalarOrArray = true)
    (b : Json) (x : AWSEMRStep H) (hb : jsonMarshalMap m = .ok b) :
    AWSEMRStep.UnmarshalJSON cv ch AWSEMRStep.zero b ≠ .ret (x, none) := by
  obtain ⟨kvs, rfl, hf⟩ := jsonMarshalMap_ok m b hb
  obtain ⟨j, hj, hjm⟩ := jsonMarshalFields_mem m kvs hf k d hmem
  obtain ⟨hnull, hobj⟩ := jsonMarshalDyn_scalar d j hj hd
  obtain ⟨e, he⟩ := jsonUnmarshalEnvelope_malformed AWSEMRStep.zero
    (AWSEMRStep.decodeProperty cv ch) kvs k j hjm hk hnull hobj
  simp [AWSEMRStep.UnmarshalJSON, he]

/-- Registry permissiveness for `AWSEMRStep`. -/
theorem emrStep_permissive {H M : Type} (cv : FieldCodec Value) (ch : FieldCodec H)
    (t : Template H M) :
    ∃ all, t.GetAllAWSEMRStepResources cv ch = .ret all ∧
      ∀ n m, t.Resources.lookup n = some (.untyped m) →
        m.lookup "Type" = some (.str "AWS::EMR::Step") →
        (∀ x, all.lookup n = some x ↔
          ∃ b, jsonMarshalMap m = .ok b ∧
            AWSEMRStep.UnmarshalJSON cv ch AWSEMRStep.zero b = .ret (x, none)) ∧
        ((∀ b x, jsonMarshalMap m = .ok b →
            AWSEMRStep.UnmarshalJSON cv ch AWSEMRStep.zero b ≠ .ret (x, none)) →
          all.lookup n = none ∧
          t.GetAWSEMRStepWithName cv ch n =
            .ret (AWSEMRStep.zero, some "resource not found")) ∧
        (∀ k d, (k, d) ∈ m → fieldMatches "Properties" k = true →
          d.isScalarOrArray = true →
          all.lookup n = none ∧
          t.GetAWSEMRStepWithName cv ch n =
            .ret (AWSEMRStep.zero, some "resource not found")) := by
  obtain ⟨all, hall, hspec⟩ := emrStep_registry_spec cv ch t
  refine ⟨all, hall, ?_⟩
  intro n m hl hty
  obtain ⟨hlook, -, hnone⟩ := hspec n
  have hfail : (∀ b x, jsonMarshalMap m = .ok b →
      AWSEMRStep.UnmarshalJSON cv ch AWSEMRStep.zero b ≠ .ret (x, none)) →
      all.lookup n = none ∧
      t.GetAWSEMRStepWithName cv ch n =
        .ret (AWSEMRStep.zero, some "resource not found") := by
    intro hno
    apply hnone
    rintro x ⟨u, hu, hs⟩
    rw [hl] at hu
    cases hu
    rcases (emrStep_typeSwitch_iff cv ch _ x).mp hs with h | ⟨m', b, hm', -, hb, hx⟩
    · cases h
    · cases hm'
      exact hno b x hb hx
  refine ⟨?_, hfail, ?_⟩
  · intro x
    rw [hlook x]
    constructor
    · rintro ⟨u, hu, hs⟩
      rw [hl] at hu
      cases hu
      rcases (emrStep_typeSwitch_iff cv ch _ x).mp hs with h | ⟨m', b, hm', -, hb, hx⟩
      · cases h
      · cases hm'
        exact ⟨b, hb, hx⟩
    · rintro ⟨b, hb, hx⟩
      exact ⟨_, hl, (emrStep_typeSwitch_iff cv ch _ x).mpr (Or.inr ⟨m, b, rfl, hty, hb, hx⟩)⟩
  · intro k d hmem hk hd
    exact hfail fun b x hb => emrStep_malformed_not_decoded cv ch m k d hmem hk hd b x hb

/-- By-name lookup of `AWSEMRStep`: when it fails, and what it returns otherwise. -/
theorem emrStep_byName_spec {H M : Type} (cv : FieldCodec Value) (ch : FieldCodec H)
    (t : Template H M) (n : String) :
    (t.GetAWSEMRStepWithName cv ch n = .ret (AWSEMRStep.zero, some "resource not found") ↔
      (t.Resources.lookup n = none ∨
       (∃ u, t.Resources.lookup n = some u ∧ (∀ x, u ≠ .emrStep x) ∧
          ∀ m, u = .untyped m → m.lookup "Type" ≠ some (.str "AWS::EMR::Step")) ∨
       (∃ m, t.Resources.lookup n = some (.untyped m) ∧
          m.lookup "Type" = some (.str "AWS::EMR::Step") ∧
          ∀ b x, jsonMarshalMap m = .ok b →
            AWSEMRStep.UnmarshalJSON cv ch AWSEMRStep.zero b ≠ .ret (x, none)))) ∧
    (∀ x, t.Resources.lookup n = some (.emrStep x) →
      t.GetAWSEMRStepWithName cv ch n = .ret (x, none)) ∧
    (∀ m b x, t.Resources.lookup n = some (.untyped m) →
      m.lookup "Type" = some (.str "AWS::EMR::Step") → jsonMarshalMap m = .ok b →
      AWSEMRStep.UnmarshalJSON cv ch AWSEMRStep.zero b = .ret (x, none) →
      t.GetAWSEMRStepWithName cv ch n = .ret (x, none)) ∧
    (t.GetAWSEMRStepWithName cv ch n = .ret (AWSEMRStep.zero, some "resource not found") ∨
      ∃ x, t.GetAWSEMRStepWithName cv ch n = .ret (x, none)) := by
  obtain ⟨all, -, hspec⟩ := emrStep_registry_spec cv ch t
  obtain ⟨-, hfound, hnone⟩ := hspec n
  have hcases : (∀ x, ¬ ∃ u, t.Resources.lookup n = some u ∧
      AWSEMRStep.typeSwitch cv ch u = .ret (some x)) ∨
      ∃ x, ∃ u, t.Resources.lookup n = some u ∧
        AWSEMRStep.typeSwitch cv ch u = .ret (some x) := by
    by_cases h : ∃ x, ∃ u, t.Resources.lookup n = some u ∧
        AWSEMRStep.typeSwitch cv ch u = .ret (some x)
    · exact Or.inr h
    · exact Or.inl fun x hx => h ⟨x, hx⟩
  refine ⟨⟨?_, ?_⟩, ?_, ?_, ?_⟩
  · intro hnf
    have hno : ∀ x, ¬ ∃ u, t.Resources.lookup n = some u ∧
        AWSEMRStep.typeSwitch cv ch u = .ret (some x) := by
      intro x hx
      have := hfound x hx
      rw [this] at hnf
      simp at hnf
    cases hl : t.Resources.lookup n with
    | none => exact Or.inl rfl
    | some u =>
      by_cases hB : (∀ x, u ≠ .emrStep x) ∧
          ∀ m, u = .untyped m → m.lookup "Type" ≠ some (.str "AWS::EMR::Step")
      · exact Or.inr (Or.inl ⟨u, rfl, hB⟩)
      · refine Or.inr (Or.inr ?_)
        cases u with
        | emrStep y =>
          exact absurd ⟨_, hl, (emrStep_typeSwitch_iff cv ch _ y).mpr (Or.inl rfl)⟩ (hno y)
        | untyped m =>
          have hty : m.lookup "Type" = some (.str "AWS::EMR::Step") := by
            by_contra hne
            exact hB ⟨fun x h => (by cases h), fun m' hm' => (by cases hm'; exact hne)⟩
          refine ⟨m, rfl, hty, ?_⟩
          intro b x hb hx
          exact hno x ⟨_, hl,
            (emrStep_typeSwitch_iff cv ch _ x).mpr (Or.inr ⟨m, b, rfl, hty, hb, hx⟩)⟩
        | nil => exact absurd ⟨fun x h => (by cases h), fun m h => (by cases h)⟩ hB
        | logsMetricFilter y => exact absurd ⟨fun x h => (by cases h), fun m h => (by cases h)⟩ hB
        | structVal fs => exact absurd ⟨fun x h => (by cases h), fun m h => (by cases h)⟩ hB
        | ptr a => exact absurd ⟨fun x h => (by cases h), fun m h => (by cases h)⟩ hB
        | nilPtr => exact absurd ⟨fun x h => (by cases h), fun m h => (by cases h)⟩ hB
  · intro hABC
    apply (hnone ?_).2
    rintro x ⟨u, hu, hs⟩
    rcases (emrStep_typeSwitch_iff cv ch u x).mp hs with h | ⟨m, b, hm, hty, hb, hx⟩
    · rcases hABC with hA | ⟨u', hu', hne, -⟩ | ⟨m, hm, -, -⟩
      · rw [hA] at hu; cases hu
      · rw [hu'] at hu; cases hu; exact hne x h
      · rw [hm] at hu; cases hu; cases h
    · rcases hABC with hA | ⟨u', hu', -, hne⟩ | ⟨m', hm', -, hno⟩
      · rw [hA] at hu; cases hu
      · rw [hu'] at hu; cases hu; exact hne m hm hty
      · rw [hm'] at hu; cases hu; cases hm; exact hno b x hb hx
  · intro x hl
    exact hfound x ⟨_, hl, (emrStep_typeSwitch_iff cv ch _ x).mpr (Or.inl rfl)⟩
  · intro m b x hl hty hb hx
    exact hfound x ⟨_, hl,
      (emrStep_typeSwitch_iff cv ch _ x).mpr (Or.inr ⟨m, b, rfl, hty, hb, hx⟩)⟩
  · rcases hcases with hno | ⟨x, hx⟩
    · exact Or.inl (hnone hno).2
    · exact Or.inr ⟨x, hfound x hx⟩

/-- Typed entries of `AWSEMRStep`: an entry held by value is found as it is; an entry that is
a pointer, nil or not, is not found. -/
theorem emrStep_typed_spec {H M : Type} (cv : FieldCodec Value) (ch : FieldCodec H)
    (t : Template H M) :
    ∃ all, t.GetAllAWSEMRStepResources cv ch = .ret all ∧
      (∀ n x, t.Resources.lookup n = some (.emrStep x) →
        all.lookup n = some x ∧ t.GetAWSEMRStepWithName cv ch n = .ret (x, none)) ∧
      (∀ n a, t.Resources.lookup n = some (.ptr a) →
        all.lookup n = none ∧
        t.GetAWSEMRStepWithName cv ch n =
          .ret (AWSEMRStep.zero, some "resource not found")) ∧
      (∀ n, t.Resources.lookup n = some .nilPtr →
        all.lookup n = none ∧
        t.GetAWSEMRStepWithName cv ch n =
          .ret (AWSEMRStep.zero, some "resource not found")) := by
  obtain ⟨all, hall, hspec⟩ := emrStep_registry_spec cv ch t
  refine ⟨all, hall, ?_, ?_, ?_⟩
  · intro n x hl
    obtain ⟨hlook, hfound, -⟩ := hspec n
    have hx : ∃ u, t.Resources.lookup n = some u ∧
        AWSEMRStep.typeSwitch cv ch u = .ret (some x) := ⟨_, hl, rfl⟩
    exact ⟨(hlook x).mpr hx, hfound x hx⟩
  · intro n a hl
    obtain ⟨-, -, hnone⟩ := hspec n
    apply hnone
    rintro x ⟨u, hu, hs⟩
    rw [hl] at hu
    cases hu
    cases hs
  · intro n hl
    obtain ⟨-, -, hnone⟩ := hspec n
    apply hnone
    rintro x ⟨u, hu, hs⟩
    rw [hl] at hu
    cases hu
    cases hs

/-- An untyped entry with a `Properties` member that is a scalar or an array does not decode
as `AWSLogsMetricFilter`. -/
theorem metricFilter_malformed_not_decoded {M : Type} (cv : FieldCodec Value)
    (cm : FieldCodec M) (m : List (String × Dyn)) (k : String) (d : Dyn) (hmem : (k, d) ∈ m)
    (hk : fieldMatches "Properties" k = true) (hd : d.isScalarOrArray = true)
    (b : Json) (x : AWSLogsMetricFilter M) (hb : jsonMarshalMap m = .ok b) :
    AWSLogsMetricFilter.UnmarshalJSON cv cm AWSLogsMetricFilter.zero b ≠ .ret (x, none) := by
  obtain ⟨kvs, rfl, hf⟩ := jsonMarshalMap_ok m b hb
  obtain ⟨j, hj, hjm⟩ := jsonMarshalFields_mem m kvs hf k d hmem
  obtain ⟨hnull, hobj⟩ := jsonMarshalDyn_scalar d j hj hd
  obtain ⟨e, he⟩ := jsonUnmarshalEnvelope_malformed AWSLogsMetricFilter.zero
    (AWSLogsMetricFilter.decodeProperty cv cm) kvs k j hjm hk hnull hobj
  simp [AWSLogsMetricFilter.UnmarshalJSON, he]

/-- Registry permissiveness for `AWSLogsMetricFilter`. -/
theorem metricFilter_permissive {H M : Type} (cv : FieldCodec Value) (cm : FieldCodec M)
    (t : Template H M) :
    ∃ all, t.GetAllAWSLogsMetricFilterResources cv cm = .ret all ∧
      ∀ n m, t.Resources.lookup n = some (.untyped m) →
        m.lookup "Type" = some (.str "AWS::Logs::MetricFilter") →
        (∀ x, all.lookup n = some x ↔
          ∃ b, jsonMarshalMap m = .ok b ∧
            AWSLogsMetricFilter.UnmarshalJSON cv cm AWSLogsMetricFilter.zero b = .ret (x, none)) ∧
        ((∀ b x, jsonMarshalMap m = .ok b →
            AWSLogsMetricFilter.UnmarshalJSON cv cm AWSLogsMetricFilter.zero b ≠ .ret (x, none)) →
          all.lookup n = none ∧
          t.GetAWSLogsMetricFilterWithName cv cm n =
            .ret (AWSLogsMetricFilter.zero, some "resource not found")) ∧
        (∀ k d, (k, d) ∈ m → fieldMatches "Properties" k = true →
          d.isScalarOrArray = true →
          all.lookup n = none ∧
          t.GetAWSLogsMetricFilterWithName cv cm n =
            .ret (AWSLogsMetricFilter.zero, some "resource not found")) := by
  obtain ⟨all, hall, hspec⟩ := metricFilter_registry_spec cv cm t
  refine ⟨all, hall, ?_⟩
  intro n m hl hty
  obtain ⟨hlook, -, hnone⟩ := hspec n
  have hfail : (∀ b x, jsonMarshalMap m = .ok b →
      AWSLogsMetricFilter.UnmarshalJSON cv cm AWSLogsMetricFilter.zero b ≠ .ret (x, none)) →
      all.lookup n = none ∧
      t.GetAWSLogsMetricFilterWithName cv cm n =
        .ret (AWSLogsMetricFilter.zero, some "resource not found") := by
    intro hno
    apply hnone
    rintro x ⟨u, hu, hs⟩
    rw [hl] at hu
    cases hu
    rcases (metricFilter_typeSwitch_iff cv cm _ x).mp hs with h | ⟨m', b, hm', -, hb, hx⟩
    · cases h
    · cases hm'
      exact hno b x hb hx
  refine ⟨?_, hfail, ?_⟩
  · intro x
    rw [hlook x]
    constructor
    · rintro ⟨u, hu, hs⟩
      rw [hl] at hu
      cases hu
      rcases (metricFilter_typeSwitch_iff cv cm _ x).mp hs with h | ⟨m', b, hm', -, hb, hx⟩
      · cases h
      · cases hm'
        exact ⟨b, hb, hx⟩
    · rintro ⟨b, hb, hx⟩
      exact ⟨_, hl, (metricFilter_typeSwitch_iff cv cm _ x).mpr (Or.inr ⟨m, b, rfl, hty, hb, hx⟩)⟩
  · intro k d hmem hk hd
    exact hfail fun b x hb => metricFilter_malformed_not_decoded cv cm m k d hmem hk hd b x hb

/-- By-name lookup of `AWSLogsMetricFilter`: when it fails, and what it returns otherwise. -/
theorem metricFilter_byName_spec {H M : Type} (cv : FieldCodec Value) (cm : FieldCodec M)
    (t : Template H M) (n : String) :
    (t.GetAWSLogsMetricFilterWithName cv cm n = .ret (AWSLogsMetricFilter.zero, some "resource not found") ↔
      (t.Resources.lookup n = none ∨
       (∃ u, t.Resources.lookup n = some u ∧ (∀ x, u ≠ .logsMetricFilter x) ∧
          ∀ m, u = .untyped m → m.lookup "Type" ≠ some (.str "AWS::Logs::MetricFilter")) ∨
       (∃ m, t.Resources.lookup n = some (.untyped m) ∧
          m.lookup "Type" = some (.str "AWS::Logs::MetricFilter") ∧
          ∀ b x, jsonMarshalMap m = .ok b →
            AWSLogsMetricFilter.UnmarshalJSON cv cm AWSLogsMetricFilter.zero b ≠ .ret (x, none)))) ∧
    (∀ x, t.Resources.lookup n = some (.logsMetricFilter x) →
      t.GetAWSLogsMetricFilterWithName cv cm n = .ret (x, none)) ∧
    (∀ m b x, t.Resources.lookup n = some (.untyped m) →
      m.lookup "Type" = some (.str "AWS::Logs::MetricFilter") → jsonMarshalMap m = .ok b →
      AWSLogsMetricFilter.UnmarshalJSON cv cm AWSLogsMetricFilter.zero b = .ret (x, none) →
      t.GetAWSLogsMetricFilterWithName cv cm n = .ret (x, none)) ∧
    (t.GetAWSLogsMetricFilterWithName cv cm n = .ret (AWSLogsMetricFilter.zero, some "resource not found") ∨
      ∃ x, t.GetAWSLogsMetricFilterWithName cv cm n = .ret (x, none)) := by
  obtain ⟨all, -, hspec⟩ := metricFilter_registry_spec cv cm t
  obtain ⟨-, hfound, hnone⟩ := hspec n
  have hcases : (∀ x, ¬ ∃ u, t.Resources.lookup n = some u ∧
      AWSLogsMetricFilter.typeSwitch cv cm u = .ret (some x)) ∨
      ∃ x, ∃ u, t.Resources.lookup n = some u ∧
        AWSLogsMetricFilter.typeSwitch cv cm u = .ret (some x) := by
    by_cases h : ∃ x, ∃ u, t.Resources.lookup n = some u ∧
        AWSLogsMetricFilter.typeSwitch cv cm u = .ret (some x)
    · exact Or.inr h
    · exact Or.inl fun x hx => h ⟨x, hx⟩
  refine ⟨⟨?_, ?_⟩, ?_, ?_, ?_⟩
  · intro hnf
    have hno : ∀ x, ¬ ∃ u, t.Resources.lookup n = some u ∧
        AWSLogsMetricFilter.typeSwitch cv cm u = .ret (some x) := by
      intro x hx
      have := hfound x hx
      rw [this] at hnf
      simp at hnf
    cases hl : t.Resources.lookup n with
    | none => exact Or.inl rfl
    | some u =>
      by_cases hB : (∀ x, u ≠ .logsMetricFilter x) ∧
          ∀ m, u = .untyped m → m.lookup "Type" ≠ some (.str "AWS::Logs::MetricFilter")
      · exact Or.inr (Or.inl ⟨u, rfl, hB⟩)
      · refine Or.inr (Or.inr ?_)
        cases u with
        | logsMetricFilter y =>
          exact absurd ⟨_, hl, (metricFilter_typeSwitch_iff cv cm _ y).mpr (Or.inl rfl)⟩ (hno y)
        | untyped m =>
          have hty : m.lookup "Type" = some (.str "AWS::Logs::MetricFilter") := by
            by_contra hne
            exact hB ⟨fun x h => (by cases h), fun m' hm' => (by cases hm'; exact hne)⟩
          refine ⟨m, rfl, hty, ?_⟩
          intro b x hb hx
          exact hno x ⟨_, hl,
            (metricFilter_typeSwitch_iff cv cm _ x).mpr (Or.inr ⟨m, b, rfl, hty, hb, hx⟩)⟩
        | nil => exact absurd ⟨fun x h => (by cases h), fun m h => (by cases h)⟩ hB
        | emrStep y => exact absurd ⟨fun x h => (by cases h), fun m h => (by cases h)⟩ hB
        | structVal fs => exact absurd ⟨fun x h => (by cases h), fun m h => (by cases h)⟩ hB
        | ptr a => exact absurd ⟨fun x h => (by cases h), fun m h => (by cases h)⟩ hB
        | nilPtr => exact absurd ⟨fun x h => (by cases h), fun m h => (by cases h)⟩ hB
  · intro hABC
    apply (hnone ?_).2
    rintro x ⟨u, hu, hs⟩
    rcases (metricFilter_typeSwitch_iff cv cm u x).mp hs with h | ⟨m, b, hm, hty, hb, hx⟩
    · rcases hABC with hA | ⟨u', hu', hne, -⟩ | ⟨m, hm, -, -⟩
      · rw [hA] at hu; cases hu
      · rw [hu'] at hu; cases hu; exact hne x h
      · rw [hm] at hu; cases hu; cases h
    · rcases hABC with hA | ⟨u', hu', -, hne⟩ | ⟨m', hm', -, hno⟩
      · rw [hA] at hu; cases hu
      · rw [hu'] at hu; cases hu; exact hne m hm hty
      · rw [hm'] at hu; cases hu; cases hm; exact hno b x hb hx
  · intro x hl
    exact hfound x ⟨_, hl, (metricFilter_typeSwitch_iff cv cm _ x).mpr (Or.inl rfl)⟩
  · intro m b x hl hty hb hx
    exact hfound x ⟨_, hl,
      (metricFilter_typeSwitch_iff cv cm _ x).mpr (Or.inr ⟨m, b, rfl, hty, hb, hx⟩)⟩
  · rcases hcases with hno | ⟨x, hx⟩
    · exact Or.inl (hnone hno).2
    · exact Or.inr ⟨x, hfound x hx⟩

/-- Typed entries of `AWSLogsMetricFilter`: an entry held by value is found as it is; an entry
that is a pointer, nil or not, is not found. -/
theorem metricFilter_typed_spec {H M : Type} (cv : FieldCodec Value) (cm : FieldCodec M)
    (t : Template H M) :
    ∃ all, t.GetAllAWSLogsMetricFilterResources cv cm = .ret all ∧
      (∀ n x, t.Resources.lookup n = some (.logsMetricFilter x) →
        all.lookup n = some x ∧ t.GetAWSLogsMetricFilterWithName cv cm n = .ret (x, none)) ∧
      (∀ n a, t.Resources.lookup n = some (.ptr a) →
        all.lookup n = none ∧
        t.GetAWSLogsMetricFilterWithName cv cm n =
          .ret (AWSLogsMetricFilter.zero, some "resource not found")) ∧
      (∀ n, t.Resources.lookup n = some .nilPtr →
        all.lookup n = none ∧
        t.GetAWSLogsMetricFilterWithName cv cm n =
          .ret (AWSLogsMetricFilter.zero, some "resource not found")) := by
  obtain ⟨all, hall, hspec⟩ := metricFilter_registry_spec cv cm t
  refine ⟨all, hall, ?_, ?_, ?_⟩
  · intro n x hl
    obtain ⟨hlook, hfound, -⟩ := hspec n
    have hx : ∃ u, t.Resources.lookup n = some u ∧
        AWSLogsMetricFilter.typeSwitch cv cm u = .ret (some x) := ⟨_, hl, rfl⟩
    exact ⟨(hlook x).mpr hx, hfound x hx⟩
  · intro n a hl
    obtain ⟨-, -, hnone⟩ := hspec n
    apply hnone
    rintro x ⟨u, hu, hs⟩
    rw [hl] at hu
    cases hu
    cases hs
  · intro n hl
    obtain ⟨-, -, hnone⟩ := hspec n
    apply hnone
    rintro x ⟨u, hu, hs⟩
    rw [hl] at hu
    cases hu
    cases hs

/-! ## The claims on the registry -/

/-- C8. Registry permissiveness: for a template and an untyped entry `n` whose `Type` is
`AWS::EMR::Step`, `GetAllAWSEMRStepResources` returns (there is no error to report), maps `n`
to `x` exactly when the envelope of the entry decodes to `x`, and has no entry for `n` when
the envelope does not decode, in particular when the entry has a `Properties` member that is
a scalar or an array; `GetAWSEMRStepWithName` then fails with `resource not found`. The same
holds for `AWSLogsMetricFilter`. -/
theorem registry_permissive {H M : Type} (cv : FieldCodec Value) (ch : FieldCodec H)
    (cm : FieldCodec M) (t : Template H M) :
    (∃ all, t.GetAllAWSEMRStepResources cv ch = .ret all ∧
      ∀ n m, t.Resources.lookup n = some (.untyped m) →
        m.lookup "Type" = some (.str "AWS::EMR::Step") →
        (∀ x, all.lookup n = some x ↔
          ∃ b, jsonMarshalMap m = .ok b ∧
            AWSEMRStep.UnmarshalJSON cv ch AWSEMRStep.zero b = .ret (x, none)) ∧
        ((∀ b x, jsonMarshalMap m = .ok b →
            AWSEMRStep.UnmarshalJSON cv ch AWSEMRStep.zero b ≠ .ret (x, none)) →
          all.lookup n = none ∧
          t.GetAWSEMRStepWithName cv ch n =
            .ret (AWSEMRStep.zero, some "resource not found")) ∧
        (∀ k d, (k, d) ∈ m → fieldMatches "Properties" k = true →
          d.isScalarOrArray = true →
          all.lookup n = none ∧
          t.GetAWSEMRStepWithName cv ch n =
            .ret (AWSEMRStep.zero, some "resource not found"))) ∧
    (∃ all, t.GetAllAWSLogsMetricFilterResources cv cm = .ret all ∧
      ∀ n m, t.Resources.lookup n = some (.untyped m) →
        m.lookup "Type" = some (.str "AWS::Logs::MetricFilter") →
        (∀ x, all.lookup n = some x ↔
          ∃ b, jsonMarshalMap m = .ok b ∧
            AWSLogsMetricFilter.UnmarshalJSON cv cm AWSLogsMetricFilter.zero b = .ret (x, none)) ∧
        ((∀ b x, jsonMarshalMap m = .ok b →
            AWSLogsMetricFilter.UnmarshalJSON cv cm AWSLogsMetricFilter.zero b ≠ .ret (x, none)) →
          all.lookup n = none ∧
          t.GetAWSLogsMetricFilterWithName cv cm n =
            .ret (AWSLogsMetricFilter.zero, some "resource not found")) ∧
        (∀ k d, (k, d) ∈ m → fieldMatches "Properties" k = true →
          d.isScalarOrArray = true →
          all.lookup n = none ∧
          t.GetAWSLogsMetricFilterWithName cv cm n =
            .ret (AWSLogsMetricFilter.zero, some "resource not found"))) :=
  ⟨emrStep_permissive cv ch t, metricFilter_permissive cv cm t⟩

/-- Witness for C8: in the sample template the well-formed untyped step is returned decoded,
the malformed one is left out and not found by name; likewise for the two untyped metric
filters. -/
theorem registry_permissive_witness :
    (∃ all, sampleTemplate.GetAllAWSEMRStepResources sampleValueCodec stringCodec = .ret all ∧
      all.lookup "Good" = some { AWSEMRStep.zero with Name := some (Value.literal "step") } ∧
      all.lookup "Bad" = none ∧
      sampleTemplate.GetAWSEMRStepWithName sampleValueCodec stringCodec "Bad" =
        .ret (AWSEMRStep.zero, some "resource not found")) ∧
    (∃ all, sampleTemplate.GetAllAWSLogsMetricFilterResources sampleValueCodec stringCodec =
        .ret all ∧
      all.lookup "GoodFilter" =
        some { AWSLogsMetricFilter.zero with FilterPattern := some (Value.literal "ERROR") } ∧
      all.lookup "BadFilter" = none ∧
      sampleTemplate.GetAWSLogsMetricFilterWithName sampleValueCodec stringCodec "BadFilter" =
        .ret (AWSLogsMetricFilter.zero, some "resource not found")) :=
  have h := registry_permissive sampleValueCodec stringCodec stringCodec sampleTemplate
  ⟨h.1.imp fun _ ha =>
      ⟨ha.1,
       ((ha.2 "Good" _ rfl rfl).1 _).mpr ⟨_, rfl, rfl⟩,
       ((ha.2 "Bad" _ rfl rfl).2.2 "Properties" (.str "oops") (List.mem_cons_self _ _)
          rfl rfl).1,
       ((ha.2 "Bad" _ rfl rfl).2.2 "Properties" (.str "oops") (List.mem_cons_self _ _)
          rfl rfl).2⟩,
   h.2.imp fun _ ha =>
      ⟨ha.1,
       ((ha.2 "GoodFilter" _ rfl rfl).1 _).mpr ⟨_, rfl, rfl⟩,
       ((ha.2 "BadFilter" _ rfl rfl).2.2 "Properties" (.arr []) (List.mem_cons_self _ _)
          rfl rfl).1,
       ((ha.2 "BadFilter" _ rfl rfl).2.2 "Properties" (.arr []) (List.mem_cons_self _ _)
          rfl rfl).2⟩⟩

/-- C9. By-name lookup fails exactly when it should: `GetAWSEMRStepWithName(t, n)` returns the
error `resource not found` with the zero instance if and only if `n` is not a resource name,
or the entry is neither an `AWSEMRStep` held by value nor an untyped entry whose `Type` is
`AWS::EMR::Step`, or it is such an untyped entry whose envelope does not decode; it returns
the instance held by value, resp. the decoded instance, with no error in the other cases,
and nothing else ever. The same holds for `AWSLogsMetricFilter`. -/
theorem byName_fails_iff {H M : Type} (cv : FieldCodec Value) (ch : FieldCodec H)
    (cm : FieldCodec M) (t : Template H M) (n : String) :
    ((t.GetAWSEMRStepWithName cv ch n = .ret (AWSEMRStep.zero, some "resource not found") ↔
      (t.Resources.lookup n = none ∨
       (∃ u, t.Resources.lookup n = some u ∧ (∀ x, u ≠ .emrStep x) ∧
          ∀ m, u = .untyped m → m.lookup "Type" ≠ some (.str "AWS::EMR::Step")) ∨
       (∃ m, t.Resources.lookup n = some (.untyped m) ∧
          m.lookup "Type" = some (.str "AWS::EMR::Step") ∧
          ∀ b x, jsonMarshalMap m = .ok b →
            AWSEMRStep.UnmarshalJSON cv ch AWSEMRStep.zero b ≠ .ret (x, none)))) ∧
    (∀ x, t.Resources.lookup n = some (.emrStep x) →
      t.GetAWSEMRStepWithName cv ch n = .ret (x, none)) ∧
    (∀ m b x, t.Resources.lookup n = some (.untyped m) →
      m.lookup "Type" = some (.str "AWS::EMR::Step") → jsonMarshalMap m = .ok b →
      AWSEMRStep.UnmarshalJSON cv ch AWSEMRStep.zero b = .ret (x, none) →
      t.GetAWSEMRStepWithName cv ch n = .ret (x, none)) ∧
    (t.GetAWSEMRStepWithName cv ch n = .ret (AWSEMRStep.zero, some "resource not found") ∨
      ∃ x, t.GetAWSEMRStepWithName cv ch n = .ret (x, none))) ∧
    ((t.GetAWSLogsMetricFilterWithName cv cm n = .ret (AWSLogsMetricFilter.zero, some "resource not found") ↔
      (t.Resources.lookup n = none ∨
       (∃ u, t.Resources.lookup n = some u ∧ (∀ x, u ≠ .logsMetricFilter x) ∧
          ∀ m, u = .untyped m → m.lookup "Type" ≠ some (.str "AWS::Logs::MetricFilter")) ∨
       (∃ m, t.Resources.lookup n = some (.untyped m) ∧
          m.lookup "Type" = some (.str "AWS::Logs::MetricFilter") ∧
          ∀ b x, jsonMarshalMap m = .ok b →
            AWSLogsMetricFilter.UnmarshalJSON cv cm AWSLogsMetricFilter.zero b ≠ .ret (x, none)))) ∧
    (∀ x, t.Resources.lookup n = some (.logsMetricFilter x) →
      t.GetAWSLogsMetricFilterWithName cv cm n = .ret (x, none)) ∧
    (∀ m b x, t.Resources.lookup n = some (.untyped m) →
      m.lookup "Type" = some (.str "AWS::Logs::MetricFilter") → jsonMarshalMap m = .ok b →
      AWSLogsMetricFilter.UnmarshalJSON cv cm AWSLogsMetricFilter.zero b = .ret (x, none) →
      t.GetAWSLogsMetricFilterWithName cv cm n = .ret (x, none)) ∧
    (t.GetAWSLogsMetricFilterWithName cv cm n = .ret (AWSLogsMetricFilter.zero, some "resource not found") ∨
      ∃ x, t.GetAWSLogsMetricFilterWithName cv cm n = .ret (x, none))) :=
  ⟨emrStep_byName_spec cv ch t n, metricFilter_byName_spec cv cm t n⟩

/-- C10 (as stated, refuted). An `AWSEMRStep` registered through the builder is not found by
the registry: passed by value, `newResource` panics and stores nothing; passed by reference
(address 1 of the sample heap), the entry stored is the pointer, `GetAWSEMRStepWithName`
fails with `resource not found` and `GetAllAWSEMRStepResources` has no entry for the name. -/
theorem registry_misses_builder_entry :
    (newResourceSet : resourceSet String String).newResource sampleHeap "Step"
        (.emrStep sampleStep) =
      .panic "reflect: call of reflect.Value.Elem on struct Value" ∧
    ∃ r', (newResourceSet : resourceSet String String).newResource sampleHeap "Step"
        (.ptr 1) = .ret (sampleHeap, r', Value.reference "Step") ∧
      r'.template.Resources.lookup "Step" = some (.ptr 1) ∧
      r'.template.GetAWSEMRStepWithName sampleValueCodec stringCodec "Step" =
        .ret (AWSEMRStep.zero, some "resource not found") ∧
      ∃ all, r'.template.GetAllAWSEMRStepResources sampleValueCodec stringCodec = .ret all ∧
        all.lookup "Step" = none :=
  ⟨rfl, _, rfl, rfl, rfl, _, rfl, rfl⟩

/-- C10 (amended). Typed entries are kept as they are by the registry: when the resource
entry `n` of a template is an `AWSEMRStep` `x` held by value, `GetAllAWSEMRStepResources` maps
`n` to `x` and `GetAWSEMRStepWithName(n)` returns `x` without error; when the entry is a
pointer, which is what the builder stores for a resource passed by reference, or a nil
pointer, it is left out and not found by name. The same holds for `AWSLogsMetricFilter`. -/
theorem typed_entries_kept {H M : Type} (cv : FieldCodec Value) (ch : FieldCodec H)
    (cm : FieldCodec M) (t : Template H M) :
    (∃ all, t.GetAllAWSEMRStepResources cv ch = .ret all ∧
      (∀ n x, t.Resources.lookup n = some (.emrStep x) →
        all.lookup n = some x ∧ t.GetAWSEMRStepWithName cv ch n = .ret (x, none)) ∧
      (∀ n a, t.Resources.lookup n = some (.ptr a) →
        all.lookup n = none ∧
        t.GetAWSEMRStepWithName cv ch n =
          .ret (AWSEMRStep.zero, some "resource not found")) ∧
      (∀ n, t.Resources.lookup n = some .nilPtr →
        all.lookup n = none ∧
        t.GetAWSEMRStepWithName cv ch n =
          .ret (AWSEMRStep.zero, some "resource not found"))) ∧
    (∃ all, t.GetAllAWSLogsMetricFilterResources cv cm = .ret all ∧
      (∀ n x, t.Resources.lookup n = some (.logsMetricFilter x) →
        all.lookup n = some x ∧ t.GetAWSLogsMetricFilterWithName cv cm n = .ret (x, none)) ∧
      (∀ n a, t.Resources.lookup n = some (.ptr a) →
        all.lookup n = none ∧
        t.GetAWSLogsMetricFilterWithName cv cm n =
          .ret (AWSLogsMetricFilter.zero, some "resource not found")) ∧
      (∀ n, t.Resources.lookup n = some .nilPtr →
        all.lookup n = none ∧
        t.GetAWSLogsMetricFilterWithName cv cm n =
          .ret (AWSLogsMetricFilter.zero, some "resource not found"))) :=
  ⟨emrStep_typed_spec cv ch t, metricFilter_typed_spec cv cm t⟩

/-- Witness for C10: the two entries of the sample template that are held by value. -/
theorem typed_entries_kept_witness :
    (∃ all, sampleTemplate.GetAllAWSEMRStepResources sampleValueCodec stringCodec = .ret all ∧
      all.lookup "Typed" = some sampleStep ∧
      sampleTemplate.GetAWSEMRStepWithName sampleValueCodec stringCodec "Typed" =
        .ret (sampleStep, none)) ∧
    (∃ all, sampleTemplate.GetAllAWSLogsMetricFilterResources sampleValueCodec stringCodec =
        .ret all ∧
      all.lookup "TypedFilter" = some sampleFilter ∧
      sampleTemplate.GetAWSLogsMetricFilterWithName sampleValueCodec stringCodec
        "TypedFilter" = .ret (sampleFilter, none)) :=
  have h := typed_entries_kept sampleValueCodec stringCodec stringCodec sampleTemplate
  ⟨h.1.imp fun _ ha =>
      ⟨ha.1, (ha.2.1 "Typed" sampleStep rfl).1, (ha.2.1 "Typed" sampleStep rfl).2⟩,
   h.2.imp fun _ ha =>
      ⟨ha.1, (ha.2.1 "TypedFilter" sampleFilter rfl).1,
        (ha.2.1 "TypedFilter" sampleFilter rfl).2⟩⟩

/-! ## Names and the automatic name tag -/

theorem makeName_eq (s : String) :
    makeName s = Value.substitution ("$\x7bAWS::StackName\x7d-" ++ s) := by
  simp [makeName, MakeFnSubString, StackName]

theorem string_append_left_cancel (p s1 s2 : String) (h : p ++ s1 = p ++ s2) : s1 = s2 := by
  have h' := congrArg String.data h
  simp only [String.data_append] at h'
  exact String.ext (List.append_cancel_left h')

theorem makeName_injective : Function.Injective makeName := by
  intro s1 s2 h
  rw [makeName_eq, makeName_eq] at h
  exact string_append_left_cancel _ _ _ (Value.substitution.inj h)

theorem makeAutoNameTag_eq (s : String) :
    makeAutoNameTag s =
      { Key := Value.literal "Name",
        Value := Value.substitution ("$\x7bAWS::StackName\x7d/" ++ s) } := by
  simp [makeAutoNameTag, MakeFnSubString, StackName, NewString]

theorem dash_ne_slash (s1 s2 : String) :
    "$\x7bAWS::StackName\x7d-" ++ s1 ≠ "$\x7bAWS::StackName\x7d/" ++ s2 := by
  intro h
  have h' := congrArg String.data h
  simp only [String.data_append] at h'
  have h2 := congrArg (fun l => l.get? 17) h'
  simp at h2

/-- C13. Name generation: `makeName(s)` is the substitution whose template string is
`${AWS::StackName}-` followed by `s`, the stack-name pseudo-variable being `gfn.StackName`,
the one `makeAutoNameTag` uses; and `makeName` is injective. -/
theorem makeName_spec :
    (∀ s, makeName s = Value.substitution ("$\x7b" ++ StackName ++ "\x7d-" ++ s)) ∧
    StackName = "AWS::StackName" ∧
    (∀ s, (makeAutoNameTag s).Value =
      Value.substitution ("$\x7b" ++ StackName ++ "\x7d/" ++ s)) ∧
    Function.Injective makeName :=
  ⟨fun _ => rfl, rfl, fun _ => rfl, makeName_injective⟩

/-- C14. Auto name tag: `makeAutoNameTag(s)` is the tag whose `Key` is the literal string
`Name` and whose `Value` is the substitution with template string `${AWS::StackName}/`
followed by `s`. -/
theorem makeAutoNameTag_spec (s : String) :
    (makeAutoNameTag s).Key = Value.literal "Name" ∧
    (makeAutoNameTag s).Value = Value.substitution ("$\x7bAWS::StackName\x7d/" ++ s) := by
  rw [makeAutoNameTag_eq]
  exact ⟨rfl, rfl⟩

/-- C15. Physical names and display-name tags never coincide: for all suffixes `s1` and `s2`,
`makeName(s1)` differs from the `Value` of `makeAutoNameTag(s2)`. -/
theorem makeName_ne_autoNameTag (s1 s2 : String) :
    makeName s1 ≠ (makeAutoNameTag s2).Value := by
  rw [makeName_eq, makeAutoNameTag_eq]
  intro h
  exact dash_ne_slash s1 s2 (Value.substitution.inj h)

/-! ## The decoder and the discriminator -/

theorem decodeEnvelopeMember_agree {P : Type} (zero : P)
    (decodeProperty : P → String → Json → Except String P) (res res' : Envelope P)
    (h : res.Properties = res'.Properties) (k : String) (v : Json) :
    AgreeOnProperties (decodeEnvelopeMember zero decodeProperty res k v)
      (decodeEnvelopeMember zero decodeProperty res' k v) := by
  unfold decodeEnvelopeMember
  by_cases hT : fieldMatches "Type" k = true
  · rw [if_pos hT, if_pos hT]
    cases v <;> simp [decodeString, AgreeOnProperties, h]
  · rw [if_neg hT, if_neg hT]
    by_cases hP : fieldMatches "Properties" k = true
    · rw [if_pos hP, if_pos hP, h]
      cases decodeStructPtr zero decodeProperty res'.Properties v <;> simp [AgreeOnProperties]
    · rw [if_neg hP, if_neg hP]
      exact h

theorem decodeEnvelopeMember_typeString {P : Type} (zero : P)
    (decodeProperty : P → String → Json → Except String P) (res : Envelope P)
    (k : String) (v : Json) (h : isTypeString (k, v) = true) :
    ∃ res1, decodeEnvelopeMember zero decodeProperty res k v = .ok res1 ∧
      res1.Properties = res.Properties := by
  unfold isTypeString at h
  simp only [Bool.and_eq_true] at h
  obtain ⟨hk, hv⟩ := h
  cases v with
  | str s => exact ⟨{ res with Type_ := s }, by simp [decodeEnvelopeMember, hk, decodeString], rfl⟩
  | null => simp at hv
  | bool b => simp at hv
  | num n => simp at hv
  | arr xs => simp at hv
  | obj m => simp at hv

theorem decodeMembers_eraseTypeStrings {P : Type} (zero : P)
    (decodeProperty : P → String → Json → Except String P) (kvs : List (String × Json))
    (res res' : Envelope P) (h : res.Properties = res'.Properties) :
    AgreeOnProperties (decodeMembers (decodeEnvelopeMember zero decodeProperty) res kvs)
      (decodeMembers (decodeEnvelopeMember zero decodeProperty) res'
        (eraseTypeStrings kvs)) := by
  induction kvs generalizing res res' with
  | nil => exact h
  | cons kv rest ih =>
    obtain ⟨k, v⟩ := kv
    by_cases ht : isTypeString (k, v) = true
    · obtain ⟨res1, h1, hp1⟩ := decodeEnvelopeMember_typeString zero decodeProperty res k v ht
      have he : eraseTypeStrings ((k, v) :: rest) = eraseTypeStrings rest := by
        simp [eraseTypeStrings, ht]
      rw [he, decodeMembers, h1]
      exact ih res1 res' (hp1.trans h)
    · have he : eraseTypeStrings ((k, v) :: rest) = (k, v) :: eraseTypeStrings rest := by
        simp [eraseTypeStrings, ht]
      rw [he, decodeMembers, decodeMembers]
      have hstep := decodeEnvelopeMember_agree zero decodeProperty res res' h k v
      cases h1 : decodeEnvelopeMember zero decodeProperty res k v with
      | ok a =>
        cases h2 : decodeEnvelopeMember zero decodeProperty res' k v with
        | ok b =>
          rw [h1, h2] at hstep
          exact ih a b hstep
        | error e => rw [h1, h2] at hstep; exact hstep.elim
      | error e =>
        cases h2 : decodeEnvelopeMember zero decodeProperty res' k v with
        | ok b => rw [h1, h2] at hstep; exact hstep.elim
        | error e' => rw [h1, h2] at hstep; exact hstep

theorem emrStep_UnmarshalJSON_erase {H : Type} (cv : FieldCodec Value) (ch : FieldCodec H)
    (r : AWSEMRStep H) (kvs : List (String × Json)) :
    AWSEMRStep.UnmarshalJSON cv ch r (.obj kvs) =
      AWSEMRStep.UnmarshalJSON cv ch r (.obj (eraseTypeStrings kvs)) := by
  have h := decodeMembers_eraseTypeStrings AWSEMRStep.zero (AWSEMRStep.decodeProperty cv ch)
    kvs { Type_ := "", Properties := none } { Type_ := "", Properties := none } rfl
  simp only [AWSEMRStep.UnmarshalJSON, jsonUnmarshalEnvelope]
  cases h1 : decodeMembers (decodeEnvelopeMember AWSEMRStep.zero
      (AWSEMRStep.decodeProperty cv ch)) { Type_ := "", Properties := none } kvs with
  | ok a =>
    cases h2 : decodeMembers (decodeEnvelopeMember AWSEMRStep.zero
        (AWSEMRStep.decodeProperty cv ch)) { Type_ := "", Properties := none }
        (eraseTypeStrings kvs) with
    | ok b =>
      rw [h1, h2] at h
      have hp : a.Properties = b.Properties := h
      simp [hp]
    | error e => rw [h1, h2] at h; exact h.elim
  | error e =>
    cases h2 : decodeMembers (decodeEnvelopeMember AWSEMRStep.zero
        (AWSEMRStep.decodeProperty cv ch)) { Type_ := "", Properties := none }
        (eraseTypeStrings kvs) with
    | ok b => rw [h1, h2] at h; exact h.elim
    | error e' =>
      rw [h1, h2] at h
      have he : e = e' := h
      simp [he]

theorem metricFilter_UnmarshalJSON_erase {M : Type} (cv : FieldCodec Value) (cm : FieldCodec M)
    (r : AWSLogsMetricFilter M) (kvs : List (String × Json)) :
    AWSLogsMetricFilter.UnmarshalJSON cv cm r (.obj kvs) =
      AWSLogsMetricFilter.UnmarshalJSON cv cm r (.obj (eraseTypeStrings kvs)) := by
  have h := decodeMembers_eraseTypeStrings AWSLogsMetricFilter.zero (AWSLogsMetricFilter.decodeProperty cv cm)
    kvs { Type_ := "", Properties := none } { Type_ := "", Properties := none } rfl
  simp only [AWSLogsMetricFilter.UnmarshalJSON, jsonUnmarshalEnvelope]
  cases h1 : decodeMembers (decodeEnvelopeMember AWSLogsMetricFilter.zero
      (AWSLogsMetricFilter.decodeProperty cv cm)) { Type_ := "", Properties := none } kvs with
  | ok a =>
    cases h2 : decodeMembers (decodeEnvelopeMember AWSLogsMetricFilter.zero
        (AWSLogsMetricFilter.decodeProperty cv cm)) { Type_ := "", Properties := none }
        (eraseTypeStrings kvs) with
    | ok b =>
      rw [h1, h2] at h
      have hp : a.Properties = b.Properties := h
      simp [hp]
    | error e => rw [h1, h2] at h; exact h.elim
  | error e =>
    cases h2 : decodeMembers (decodeEnvelopeMember AWSLogsMetricFilter.zero
        (AWSLogsMetricFilter.decodeProperty cv cm)) { Type_ := "", Properties := none }
        (eraseTypeStrings kvs) with
    | ok b => rw [h1, h2] at h; exact h.elim
    | error e' =>
      rw [h1, h2] at h
      have he : e = e' := h
      simp [he]

/-- C11 (as stated, refuted). Decoding the envelope `{"Type": "AWS::EMR::Step"}`, which has no
`Properties`, into an instance that already holds the sample step succeeds and leaves the
instance as it was, which is not the zero-valued instance. -/
theorem unmarshal_without_properties_keeps_receiver :
    AWSEMRStep.UnmarshalJSON sampleValueCodec stringCodec sampleStep
      (.obj [("Type", .str "AWS::EMR::Step")]) = .ret (sampleStep, none) ∧
    sampleStep ≠ AWSEMRStep.zero := by
  refine ⟨?_, by decide⟩
  simp +decide [AWSEMRStep.UnmarshalJSON, jsonUnmarshalEnvelope, decodeMembers,
    decodeEnvelopeMember, decodeString]

/-- C11 (amended). Decoding an envelope without properties: for every envelope `{"Type": s}`
whose `Properties` is absent or `null`, `UnmarshalJSON` of `AWSEMRStep` and of
`AWSLogsMetricFilter` succeeds and leaves the receiving instance exactly as it was before the
call; a fresh instance therefore stays the zero-valued instance. -/
theorem unmarshal_without_properties {H M : Type} (cv : FieldCodec Value) (ch : FieldCodec H)
    (cm : FieldCodec M) (s : String) :
    (∀ r : AWSEMRStep H,
      AWSEMRStep.UnmarshalJSON cv ch r (.obj [("Type", .str s)]) = .ret (r, none) ∧
      AWSEMRStep.UnmarshalJSON cv ch r (.obj [("Type", .str s), ("Properties", .null)]) =
        .ret (r, none) ∧
      AWSEMRStep.UnmarshalJSON cv ch r (.obj [("Properties", .null), ("Type", .str s)]) =
        .ret (r, none)) ∧
    (∀ r : AWSLogsMetricFilter M,
      AWSLogsMetricFilter.UnmarshalJSON cv cm r (.obj [("Type", .str s)]) = .ret (r, none) ∧
      AWSLogsMetricFilter.UnmarshalJSON cv cm r
        (.obj [("Type", .str s), ("Properties", .null)]) = .ret (r, none) ∧
      AWSLogsMetricFilter.UnmarshalJSON cv cm r
        (.obj [("Properties", .null), ("Type", .str s)]) = .ret (r, none)) ∧
    AWSEMRStep.UnmarshalJSON cv ch AWSEMRStep.zero (.obj [("Type", .str s)]) =
      .ret (AWSEMRStep.zero, none) ∧
    AWSLogsMetricFilter.UnmarshalJSON cv cm AWSLogsMetricFilter.zero (.obj [("Type", .str s)]) =
      .ret (AWSLogsMetricFilter.zero, none) := by
  refine ⟨fun r => ⟨?_, ?_, ?_⟩, fun r => ⟨?_, ?_, ?_⟩, ?_, ?_⟩ <;>
  simp +decide [AWSEMRStep.UnmarshalJSON, AWSLogsMetricFilter.UnmarshalJSON,
    jsonUnmarshalEnvelope, decodeMembers, decodeEnvelopeMember, decodeString, decodeStructPtr]

/-- C19. The decoder does not look at the discriminator: two envelopes with the same members
apart from string-valued `Type` members (another string, or no such member at all) give the
same outcome of `UnmarshalJSON`, the same error or the same instance, whatever the receiving
instance holds, so in particular for a fresh one; for `AWSEMRStep` and for
`AWSLogsMetricFilter`. -/
theorem unmarshal_ignores_type {H M : Type} (cv : FieldCodec Value) (ch : FieldCodec H)
    (cm : FieldCodec M) (kvs1 kvs2 : List (String × Json))
    (h : eraseTypeStrings kvs1 = eraseTypeStrings kvs2) :
    (∀ r : AWSEMRStep H,
      AWSEMRStep.UnmarshalJSON cv ch r (.obj kvs1) =
        AWSEMRStep.UnmarshalJSON cv ch r (.obj kvs2)) ∧
    (∀ r : AWSLogsMetricFilter M,
      AWSLogsMetricFilter.UnmarshalJSON cv cm r (.obj kvs1) =
        AWSLogsMetricFilter.UnmarshalJSON cv cm r (.obj kvs2)) := by
  constructor
  · intro r
    rw [emrStep_UnmarshalJSON_erase cv ch r kvs1, emrStep_UnmarshalJSON_erase cv ch r kvs2, h]
  · intro r
    rw [metricFilter_UnmarshalJSON_erase cv cm r kvs1,
      metricFilter_UnmarshalJSON_erase cv cm r kvs2, h]

/-- Witness for C19: an envelope typed as a step, the same envelope typed as a bucket, and the
same envelope without `Type` decode alike into a fresh `AWSEMRStep`. -/
theorem unmarshal_ignores_type_witness :
    AWSEMRStep.UnmarshalJSON sampleValueCodec stringCodec AWSEMRStep.zero
        (.obj [("Type", .str "AWS::EMR::Step"), ("Properties", .obj [("Name", .str "step")])]) =
      AWSEMRStep.UnmarshalJSON sampleValueCodec stringCodec AWSEMRStep.zero
        (.obj [("Type", .str "AWS::S3::Bucket"),
               ("Properties", .obj [("Name", .str "step")])]) ∧
    AWSEMRStep.UnmarshalJSON sampleValueCodec stringCodec AWSEMRStep.zero
        (.obj [("Type", .str "AWS::EMR::Step"), ("Properties", .obj [("Name", .str "step")])]) =
      AWSEMRStep.UnmarshalJSON sampleValueCodec stringCodec AWSEMRStep.zero
        (.obj [("Properties", .obj [("Name", .str "step")])]) :=
  ⟨(unmarshal_ignores_type sampleValueCodec stringCodec stringCodec
      [("Type", .str "AWS::EMR::Step"), ("Properties", .obj [("Name", .str "step")])]
      [("Type", .str "AWS::S3::Bucket"), ("Properties", .obj [("Name", .str "step")])]
      rfl).1 AWSEMRStep.zero,
   (unmarshal_ignores_type sampleValueCodec stringCodec stringCodec
      [("Type", .str "AWS::EMR::Step"), ("Properties", .obj [("Name", .str "step")])]
      [("Properties", .obj [("Name", .str "step")])]
      rfl).1 AWSEMRStep.zero⟩

/-! ## Registering the same object again -/

/-- One run of `maybeSetNameTag` on a pointer to a taggable struct. -/
theorem maybeSetNameTag_taggable {H M : Type} (heap : Heap H M) (n : String) (a : Nat)
    (fields : List Field) (f : Field) (ts : GoSlice Tag)
    (hcell : heap a = .struct fields) (hf : FieldByName fields "Tags" = some f)
    (hty : f.val = .tags ts) :
    ∃ heap' fields', maybeSetNameTag heap n (.ptr a) = .ret heap' ∧
      heap' a = .struct fields' ∧
      FieldByName fields' "Tags" =
        some { name := f.name, val := .tags (some (GoSlice.toList ts ++ [makeAutoNameTag n])) } ∧
      (∀ a', a' ≠ a → heap' a' = heap a') := by
  refine ⟨Function.update heap a (.struct (setField "Tags"
      (.tags (GoSlice.append ts (makeAutoNameTag n))) fields)),
    setField "Tags" (.tags (GoSlice.append ts (makeAutoNameTag n))) fields, ?_, ?_, ?_, ?_⟩
  · simp [maybeSetNameTag, hcell, hf, hty]
  · simp
  · rw [FieldByName_setField_same, hf]; rfl
  · intro a' ha'
    simp [Function.update, ha']

/-- C16 (as stated, refuted). Registering the sample VPC (address 0, no tags) twice as `VPC`:
both calls return, and afterwards its tag sequence holds the auto `Name` tag twice, while
after the first call it held it once. -/
theorem newResource_twice_tags_twice :
    ∃ heap1 r1 heap2 r2,
      (newResourceSet : resourceSet String String).newResource sampleHeap "VPC" (.ptr 0) =
        .ret (heap1, r1, Value.reference "VPC") ∧
      r1.newResource heap1 "VPC" (.ptr 0) = .ret (heap2, r2, Value.reference "VPC") ∧
      (heap1 0).tags = [makeAutoNameTag "VPC"] ∧
      (heap2 0).tags = [makeAutoNameTag "VPC", makeAutoNameTag "VPC"] ∧
      (heap2 0).tags.count (makeAutoNameTag "VPC") = 2 :=
  ⟨_, _, _, _, rfl, rfl, rfl, rfl, by decide⟩

/-- C16 (amended). Registering the same tag-capable resource again: for a resource passed by
reference whose struct has a `[]Tag` field `Tags` holding `ts`, calling `newResource(n, r)`
twice returns `Reference(n)` both times and leaves the resource set (parameters, resources,
outputs) exactly as after one call, with `n` mapped to the reference; the resource itself
gets the auto `Name` tag appended once per call, so that its tags are
`ts ++ [tag]` after one call and `ts ++ [tag, tag]` after two; the other heap cells are
unchanged. -/
theorem newResource_twice_same_object {H M : Type} (r : resourceSet H M) (heap : Heap H M)
    (n : String) (a : Nat) (fields : List Field) (f : Field) (ts : GoSlice Tag)
    (hcell : heap a = .struct fields) (hf : FieldByName fields "Tags" = some f)
    (hty : f.val = .tags ts) :
    ∃ heap1 r1 heap2 r2,
      r.newResource heap n (.ptr a) = .ret (heap1, r1, Value.reference n) ∧
      r1.newResource heap1 n (.ptr a) = .ret (heap2, r2, Value.reference n) ∧
      r2 = r1 ∧
      r2.template.Resources.lookup n = some (.ptr a) ∧
      (heap1 a).tags = GoSlice.toList ts ++ [makeAutoNameTag n] ∧
      (heap2 a).tags = GoSlice.toList ts ++ [makeAutoNameTag n, makeAutoNameTag n] ∧
      (∀ a', a' ≠ a → heap2 a' = heap a') := by
  obtain ⟨heap1, fields1, hm1, hc1, hf1, hfr1⟩ :=
    maybeSetNameTag_taggable heap n a fields f ts hcell hf hty
  obtain ⟨heap2, fields2, hm2, hc2, hf2, hfr2⟩ :=
    maybeSetNameTag_taggable heap1 n a fields1 _ _ hc1 hf1 rfl
  refine ⟨heap1, _, heap2, _, newResource_of_maybeSetNameTag r heap heap1 n _ hm1,
    newResource_of_maybeSetNameTag _ heap1 heap2 n _ hm2, ?_, ?_, ?_, ?_, ?_⟩
  · simp [AList.insert_insert]
  · simp
  · simp [Pointee.tags, hc1, hf1, GoSlice.toList]
  · simp [Pointee.tags, hc2, hf2, GoSlice.toList]
  · intro a' ha'
    rw [hfr2 a' ha', hfr1 a' ha']

/-- Witness for C16: the sample VPC registered twice as `VPC`. -/
theorem newResource_twice_same_object_witness :
    ∃ heap1 r1 heap2 r2,
      (newResourceSet : resourceSet String String).newResource sampleHeap "VPC" (.ptr 0) =
        .ret (heap1, r1, Value.reference "VPC") ∧
      r1.newResource heap1 "VPC" (.ptr 0) = .ret (heap2, r2, Value.reference "VPC") ∧
      r2 = r1 ∧
      r2.template.Resources.lookup "VPC" = some (.ptr 0) ∧
      (heap1 0).tags = GoSlice.toList none ++ [makeAutoNameTag "VPC"] ∧
      (heap2 0).tags =
        GoSlice.toList none ++ [makeAutoNameTag "VPC", makeAutoNameTag "VPC"] ∧
      (∀ a', a' ≠ 0 → heap2 a' = sampleHeap a') :=
  newResource_twice_same_object newResourceSet sampleHeap "VPC" 0
    [{ name := "CidrBlock", val := .other (.str "192.168.0.0/16") },
     { name := "Tags", val := .tags none }]
    { name := "Tags", val := .tags none } none rfl rfl rfl

/-! ## Bulk scan, by-name lookup and the partition into kinds -/

/-- Bulk scan and by-name lookup of `AWSEMRStep` agree. -/
theorem emrStep_bulk_byName_agree {H M : Type} (cv : FieldCodec Value) (ch : FieldCodec H)
    (t : Template H M) :
    ∃ all, t.GetAllAWSEMRStepResources cv ch = .ret all ∧
      ∀ n,
        (∀ v, t.GetAWSEMRStepWithName cv ch n = .ret (v, none) ↔ all.lookup n = some v) ∧
        (t.GetAWSEMRStepWithName cv ch n =
            .ret (AWSEMRStep.zero, some "resource not found") ↔ all.lookup n = none) := by
  obtain ⟨all, hall, hspec⟩ := emrStep_registry_spec cv ch t
  refine ⟨all, hall, fun n => ?_⟩
  obtain ⟨hlook, hfound, hnone⟩ := hspec n
  have hsome : ∀ x, all.lookup n = some x →
      t.GetAWSEMRStepWithName cv ch n = .ret (x, none) :=
    fun x hx => hfound x ((hlook x).mp hx)
  have hnone' : all.lookup n = none →
      t.GetAWSEMRStepWithName cv ch n =
        .ret (AWSEMRStep.zero, some "resource not found") := by
    intro hn
    apply (hnone ?_).2
    intro x hx
    rw [(hlook x).mpr hx] at hn
    cases hn
  constructor
  · intro v
    constructor
    · intro hv
      cases hl : all.lookup n with
      | none =>
        rw [hnone' hl] at hv
        simp at hv
      | some x =>
        rw [hsome x hl] at hv
        simp at hv
        rw [hv]
    · exact hsome v
  · constructor
    · intro hv
      cases hl : all.lookup n with
      | none => rfl
      | some x =>
        rw [hsome x hl] at hv
        simp at hv
    · exact hnone'

/-- Bulk scan and by-name lookup of `AWSLogsMetricFilter` agree. -/
theorem metricFilter_bulk_byName_agree {H M : Type} (cv : FieldCodec Value) (cm : FieldCodec M)
    (t : Template H M) :
    ∃ all, t.GetAllAWSLogsMetricFilterResources cv cm = .ret all ∧
      ∀ n,
        (∀ v, t.GetAWSLogsMetricFilterWithName cv cm n = .ret (v, none) ↔ all.lookup n = some v) ∧
        (t.GetAWSLogsMetricFilterWithName cv cm n =
            .ret (AWSLogsMetricFilter.zero, some "resource not found") ↔ all.lookup n = none) := by
  obtain ⟨all, hall, hspec⟩ := metricFilter_registry_spec cv cm t
  refine ⟨all, hall, fun n => ?_⟩
  obtain ⟨hlook, hfound, hnone⟩ := hspec n
  have hsome : ∀ x, all.lookup n = some x →
      t.GetAWSLogsMetricFilterWithName cv cm n = .ret (x, none) :=
    fun x hx => hfound x ((hlook x).mp hx)
  have hnone' : all.lookup n = none →
      t.GetAWSLogsMetricFilterWithName cv cm n =
        .ret (AWSLogsMetricFilter.zero, some "resource not found") := by
    intro hn
    apply (hnone ?_).2
    intro x hx
    rw [(hlook x).mpr hx] at hn
    cases hn
  constructor
  · intro v
    constructor
    · intro hv
      cases hl : all.lookup n with
      | none =>
        rw [hnone' hl] at hv
        simp at hv
      | some x =>
        rw [hsome x hl] at hv
        simp at hv
        rw [hv]
    · exact hsome v
  · constructor
    · intro hv
      cases hl : all.lookup n with
      | none => rfl
      | some x =>
        rw [hsome x hl] at hv
        simp at hv
    · exact hnone'

/-- C17. Bulk scan and by-name lookup agree: `GetAllAWSEMRStepResources(t)` returns, and for
every name `n` and instance `v`, `GetAWSEMRStepWithName(t, n)` returns `v` without error if
and only if the bulk result maps `n` to `v`; the by-name lookup fails with
`resource not found` exactly for the names absent from the bulk result. The same holds for
`AWSLogsMetricFilter`. -/
theorem bulk_byName_agree {H M : Type} (cv : FieldCodec Value) (ch : FieldCodec H)
    (cm : FieldCodec M) (t : Template H M) :
    (∃ all, t.GetAllAWSEMRStepResources cv ch = .ret all ∧
      ∀ n,
        (∀ v, t.GetAWSEMRStepWithName cv ch n = .ret (v, none) ↔ all.lookup n = some v) ∧
        (t.GetAWSEMRStepWithName cv ch n =
            .ret (AWSEMRStep.zero, some "resource not found") ↔ all.lookup n = none)) ∧
    (∃ all, t.GetAllAWSLogsMetricFilterResources cv cm = .ret all ∧
      ∀ n,
        (∀ v, t.GetAWSLogsMetricFilterWithName cv cm n = .ret (v, none) ↔
          all.lookup n = some v) ∧
        (t.GetAWSLogsMetricFilterWithName cv cm n =
            .ret (AWSLogsMetricFilter.zero, some "resource not found") ↔
          all.lookup n = none)) :=
  ⟨emrStep_bulk_byName_agree cv ch t, metricFilter_bulk_byName_agree cv cm t⟩

/-- C18. Kinds partition the template: the names in the results of
`GetAllAWSEMRStepResources(t)` and `GetAllAWSLogsMetricFilterResources(t)` are resource names
of `t`, no name is in both results, and an untyped entry that has no `Type` key, or whose
`Type` is neither kind's identifier, is in neither result. -/
theorem kinds_partition {H M : Type} (cv : FieldCodec Value) (ch : FieldCodec H)
    (cm : FieldCodec M) (t : Template H M) :
    ∃ steps filters,
      t.GetAllAWSEMRStepResources cv ch = .ret steps ∧
      t.GetAllAWSLogsMetricFilterResources cv cm = .ret filters ∧
      (∀ n, n ∈ steps → n ∈ t.Resources) ∧
      (∀ n, n ∈ filters → n ∈ t.Resources) ∧
      (∀ n, ¬ (n ∈ steps ∧ n ∈ filters)) ∧
      (∀ n m, t.Resources.lookup n = some (.untyped m) →
        (m.lookup "Type" = none ∨
          (m.lookup "Type" ≠ some (.str "AWS::EMR::Step") ∧
           m.lookup "Type" ≠ some (.str "AWS::Logs::MetricFilter"))) →
        n ∉ steps ∧ n ∉ filters) := by
  obtain ⟨steps, hs, hspecS⟩ := emrStep_registry_spec cv ch t
  obtain ⟨filters, hf, hspecF⟩ := metricFilter_registry_spec cv cm t
  have memS : ∀ n, n ∈ steps → ∃ x u, t.Resources.lookup n = some u ∧
      AWSEMRStep.typeSwitch cv ch u = .ret (some x) := by
    intro n hn
    obtain ⟨x, hx⟩ := Option.isSome_iff_exists.mp (AList.lookup_isSome.mpr hn)
    exact ⟨x, ((hspecS n).1 x).mp hx⟩
  have memF : ∀ n, n ∈ filters → ∃ x u, t.Resources.lookup n = some u ∧
      AWSLogsMetricFilter.typeSwitch cv cm u = .ret (some x) := by
    intro n hn
    obtain ⟨x, hx⟩ := Option.isSome_iff_exists.mp (AList.lookup_isSome.mpr hn)
    exact ⟨x, ((hspecF n).1 x).mp hx⟩
  refine ⟨steps, filters, hs, hf, ?_, ?_, ?_, ?_⟩
  · intro n hn
    obtain ⟨x, u, hu, -⟩ := memS n hn
    exact AList.lookup_isSome.mp (by rw [hu]; rfl)
  · intro n hn
    obtain ⟨x, u, hu, -⟩ := memF n hn
    exact AList.lookup_isSome.mp (by rw [hu]; rfl)
  · rintro n ⟨hn1, hn2⟩
    obtain ⟨x, u, hu, hx⟩ := memS n hn1
    obtain ⟨y, u', hu', hy⟩ := memF n hn2
    rw [hu] at hu'
    cases hu'
    rcases (emrStep_typeSwitch_iff cv ch u x).mp hx with h1 | ⟨m1, b1, hm1, hty1, -, -⟩
    · rcases (metricFilter_typeSwitch_iff cv cm u y).mp hy with h2 | ⟨m2, b2, hm2, -, -, -⟩
      · rw [h1] at h2; cases h2
      · rw [h1] at hm2; cases hm2
    · rcases (metricFilter_typeSwitch_iff cv cm u y).mp hy with h2 | ⟨m2, b2, hm2, hty2, -, -⟩
      · rw [hm1] at h2; cases h2
      · rw [hm1] at hm2
        cases hm2
        rw [hty1] at hty2
        simp at hty2
  · intro n m hl hty
    constructor
    · intro hn
      obtain ⟨x, u, hu, hx⟩ := memS n hn
      rw [hl] at hu
      cases hu
      rcases (emrStep_typeSwitch_iff cv ch _ x).mp hx with h1 | ⟨m1, b1, hm1, hty1, -, -⟩
      · cases h1
      · cases hm1
        rcases hty with h0 | ⟨h0, -⟩
        · rw [h0] at hty1; cases hty1
        · exact h0 hty1
    · intro hn
      obtain ⟨x, u, hu, hx⟩ := memF n hn
      rw [hl] at hu
      cases hu
      rcases (metricFilter_typeSwitch_iff cv cm _ x).mp hx with h1 | ⟨m1, b1, hm1, hty1, -, -⟩
      · cases h1
      · cases hm1
        rcases hty with h0 | ⟨-, h0⟩
        · rw [h0] at hty1; cases hty1
        · exact h0 hty1

/-! ## The shape of the envelope -/

theorem encodePtr_keys {α : Type} (c : FieldCodec α) (name : String) (f : Option α)
    (l : List (String × Json)) (h : encodePtr c name f = .ok l) :
    l.map Prod.fst = if f.isSome then [name] else [] := by
  cases f with
  | none => cases h; rfl
  | some x =>
    rw [encodePtr] at h
    cases hm : c.marshal x with
    | error e => rw [hm] at h; cases h
    | ok j => rw [hm] at h; cases h; rfl

theorem encodeSlice_keys {α : Type} (c : FieldCodec α) (name : String) (f : GoSlice α)
    (l : List (String × Json)) (h : encodeSlice c name f = .ok l) :
    l.map Prod.fst = if (GoSlice.toList f).isEmpty then [] else [name] := by
  cases f with
  | none => cases h; rfl
  | some xs =>
    cases xs with
    | nil => cases h; rfl
    | cons x xs =>
      rw [encodeSlice] at h
      cases hm : encodeElems c (x :: xs) with
      | error e => rw [hm] at h; cases h
      | ok js => rw [hm] at h; cases h; rfl

theorem encodePtr_total {α : Type} (c : FieldCodec α) (hc : c.MarshalTotal) (name : String)
    (f : Option α) : ∃ l, encodePtr c name f = .ok l := by
  cases f with
  | none => exact ⟨[], rfl⟩
  | some x =>
    obtain ⟨j, hj⟩ := hc x
    exact ⟨[(name, j)], by simp [encodePtr, hj]⟩

theorem encodeElems_total {α : Type} (c : FieldCodec α) (hc : c.MarshalTotal) (xs : List α) :
    ∃ js, encodeElems c xs = .ok js := by
  induction xs with
  | nil => exact ⟨[], rfl⟩
  | cons x xs ih =>
    obtain ⟨js, hjs⟩ := ih
    obtain ⟨j, hj⟩ := hc x
    exact ⟨j :: js, by simp [encodeElems, hj, hjs]⟩

theorem encodeSlice_total {α : Type} (c : FieldCodec α) (hc : c.MarshalTotal) (name : String)
    (f : GoSlice α) : ∃ l, encodeSlice c name f = .ok l := by
  cases f with
  | none => exact ⟨[], rfl⟩
  | some xs =>
    cases xs with
    | nil => exact ⟨[], rfl⟩
    | cons x xs =>
      obtain ⟨js, hjs⟩ := encodeElems_total c hc (x :: xs)
      exact ⟨[(name, .arr js)], by simp [encodeSlice, hjs]⟩

/-- The envelope `AWSEMRStep.MarshalJSON` produces, when it produces one. -/
theorem emrStep_marshal_shape {H : Type} (cv : FieldCodec Value) (ch : FieldCodec H)
    (x : AWSEMRStep H) (b : Json) (h : AWSEMRStep.MarshalJSON cv ch x = .ok b) :
    ∃ props, b = .obj [("Type", .str "AWS::EMR::Step"), ("Properties", .obj props)] ∧
      props.map Prod.fst =
        (if x.ActionOnFailure.isSome then ["ActionOnFailure"] else []) ++
        (if x.HadoopJarStep.isSome then ["HadoopJarStep"] else []) ++
        (if x.JobFlowId.isSome then ["JobFlowId"] else []) ++
        (if x.Name.isSome then ["Name"] else []) := by
  unfold AWSEMRStep.MarshalJSON AWSEMRStep.encodeProperties at h
  cases h1 : encodePtr cv "ActionOnFailure" x.ActionOnFailure with
  | error e => rw [h1] at h; cases h
  | ok f1 =>
    cases h2 : encodePtr ch "HadoopJarStep" x.HadoopJarStep with
    | error e => rw [h1, h2] at h; cases h
    | ok f2 =>
      cases h3 : encodePtr cv "JobFlowId" x.JobFlowId with
      | error e => rw [h1, h2, h3] at h; cases h
      | ok f3 =>
        cases h4 : encodePtr cv "Name" x.Name with
        | error e => rw [h1, h2, h3, h4] at h; cases h
        | ok f4 =>
          rw [h1, h2, h3, h4] at h
          cases h
          refine ⟨f1 ++ f2 ++ f3 ++ f4, rfl, ?_⟩
          rw [List.map_append, List.map_append, List.map_append,
            encodePtr_keys cv _ _ f1 h1, encodePtr_keys ch _ _ f2 h2,
            encodePtr_keys cv _ _ f3 h3, encodePtr_keys cv _ _ f4 h4]

/-- `AWSEMRStep.MarshalJSON` succeeds when the codecs of its field types do. -/
theorem emrStep_marshal_total {H : Type} (cv : FieldCodec Value) (ch : FieldCodec H)
    (hv : cv.MarshalTotal) (hh : ch.MarshalTotal) (x : AWSEMRStep H) :
    ∃ b, AWSEMRStep.MarshalJSON cv ch x = .ok b := by
  obtain ⟨f1, h1⟩ := encodePtr_total cv hv "ActionOnFailure" x.ActionOnFailure
  obtain ⟨f2, h2⟩ := encodePtr_total ch hh "HadoopJarStep" x.HadoopJarStep
  obtain ⟨f3, h3⟩ := encodePtr_total cv hv "JobFlowId" x.JobFlowId
  obtain ⟨f4, h4⟩ := encodePtr_total cv hv "Name" x.Name
  exact ⟨.obj [("Type", .str x.AWSCloudFormationType),
      ("Properties", .obj (f1 ++ f2 ++ f3 ++ f4))],
    by simp [AWSEMRStep.MarshalJSON, AWSEMRStep.encodeProperties, h1, h2, h3, h4]⟩

/-- The envelope `AWSLogsMetricFilter.MarshalJSON` produces, when it produces one. -/
theorem metricFilter_marshal_shape {M : Type} (cv : FieldCodec Value) (cm : FieldCodec M)
    (x : AWSLogsMetricFilter M) (b : Json)
    (h : AWSLogsMetricFilter.MarshalJSON cv cm x = .ok b) :
    ∃ props, b = .obj [("Type", .str "AWS::Logs::MetricFilter"), ("Properties", .obj props)] ∧
      props.map Prod.fst =
        (if x.FilterPattern.isSome then ["FilterPattern"] else []) ++
        (if x.LogGroupName.isSome then ["LogGroupName"] else []) ++
        (if (GoSlice.toList x.MetricTransformations).isEmpty then []
          else ["MetricTransformations"]) := by
  unfold AWSLogsMetricFilter.MarshalJSON AWSLogsMetricFilter.encodeProperties at h
  cases h1 : encodePtr cv "FilterPattern" x.FilterPattern with
  | error e => rw [h1] at h; cases h
  | ok f1 =>
    cases h2 : encodePtr cv "LogGroupName" x.LogGroupName with
    | error e => rw [h1, h2] at h; cases h
    | ok f2 =>
      cases h3 : encodeSlice cm "MetricTransformations" x.MetricTransformations with
      | error e => rw [h1, h2, h3] at h; cases h
      | ok f3 =>
        rw [h1, h2, h3] at h
        cases h
        refine ⟨f1 ++ f2 ++ f3, rfl, ?_⟩
        rw [List.map_append, List.map_append,
          encodePtr_keys cv _ _ f1 h1, encodePtr_keys cv _ _ f2 h2,
          encodeSlice_keys cm _ _ f3 h3]

/-- `AWSLogsMetricFilter.MarshalJSON` succeeds when the codecs of its field types do. -/
theorem metricFilter_marshal_total {M : Type} (cv : FieldCodec Value) (cm : FieldCodec M)
    (hv : cv.MarshalTotal) (hm : cm.MarshalTotal) (x : AWSLogsMetricFilter M) :
    ∃ b, AWSLogsMetricFilter.MarshalJSON cv cm x = .ok b := by
  obtain ⟨f1, h1⟩ := encodePtr_total cv hv "FilterPattern" x.FilterPattern
  obtain ⟨f2, h2⟩ := encodePtr_total cv hv "LogGroupName" x.LogGroupName
  obtain ⟨f3, h3⟩ := encodeSlice_total cm hm "MetricTransformations" x.MetricTransformations
  exact ⟨.obj [("Type", .str x.AWSCloudFormationType), ("Properties", .obj (f1 ++ f2 ++ f3))],
    by simp [AWSLogsMetricFilter.MarshalJSON, AWSLogsMetricFilter.encodeProperties, h1, h2,
      h3]⟩

theorem sampleValueCodec_marshalTotal : sampleValueCodec.MarshalTotal :=
  fun x => (sampleValueCodec_roundTripsNonNull x).imp fun _ h => h.1

theorem stringCodec_marshalTotal : stringCodec.MarshalTotal :=
  fun s => ⟨.str s, rfl⟩

/-- C12. Envelope shape: whenever `MarshalJSON(x)` yields a document, for `x` an `AWSEMRStep`
or an `AWSLogsMetricFilter`, the document is an object with exactly the two members `Type`,
the kind's `AWSCloudFormationType()`, and `Properties`, an object with one member for each
field of `x` that is not nil (for the slice: not empty), in field order, and no other
member; for the zero-valued instance `Properties` is the empty object; and `MarshalJSON`
yields a document for every `x` when the codecs of the field types never fail. -/
theorem marshal_envelope_shape {H M : Type} (cv : FieldCodec Value) (ch : FieldCodec H)
    (cm : FieldCodec M) :
    ((∀ (x : AWSEMRStep H) (b : Json), AWSEMRStep.MarshalJSON cv ch x = .ok b →
        ∃ props, b = .obj [("Type", .str x.AWSCloudFormationType),
            ("Properties", .obj props)] ∧
          x.AWSCloudFormationType = "AWS::EMR::Step" ∧
          props.map Prod.fst =
            (if x.ActionOnFailure.isSome then ["ActionOnFailure"] else []) ++
            (if x.HadoopJarStep.isSome then ["HadoopJarStep"] else []) ++
            (if x.JobFlowId.isSome then ["JobFlowId"] else []) ++
            (if x.Name.isSome then ["Name"] else [])) ∧
      AWSEMRStep.MarshalJSON cv ch AWSEMRStep.zero =
        .ok (.obj [("Type", .str "AWS::EMR::Step"), ("Properties", .obj [])]) ∧
      (cv.MarshalTotal → ch.MarshalTotal →
        ∀ x : AWSEMRStep H, ∃ b, AWSEMRStep.MarshalJSON cv ch x = .ok b)) ∧
    ((∀ (x : AWSLogsMetricFilter M) (b : Json),
        AWSLogsMetricFilter.MarshalJSON cv cm x = .ok b →
        ∃ props, b = .obj [("Type", .str x.AWSCloudFormationType),
            ("Properties", .obj props)] ∧
          x.AWSCloudFormationType = "AWS::Logs::MetricFilter" ∧
          props.map Prod.fst =
            (if x.FilterPattern.isSome then ["FilterPattern"] else []) ++
            (if x.LogGroupName.isSome then ["LogGroupName"] else []) ++
            (if (GoSlice.toList x.MetricTransformations).isEmpty then []
              else ["MetricTransformations"])) ∧
      AWSLogsMetricFilter.MarshalJSON cv cm AWSLogsMetricFilter.zero =
        .ok (.obj [("Type", .str "AWS::Logs::MetricFilter"), ("Properties", .obj [])]) ∧
      (cv.MarshalTotal → cm.MarshalTotal →
        ∀ x : AWSLogsMetricFilter M, ∃ b, AWSLogsMetricFilter.MarshalJSON cv cm x = .ok b)) := by
  refine ⟨⟨?_, rfl, fun hv hh => emrStep_marshal_total cv ch hv hh⟩,
    ⟨?_, rfl, fun hv hm => metricFilter_marshal_total cv cm hv hm⟩⟩
  · intro x b h
    obtain ⟨props, hb, hk⟩ := emrStep_marshal_shape cv ch x b h
    exact ⟨props, hb, rfl, hk⟩
  · intro x b h
    obtain ⟨props, hb, hk⟩ := metricFilter_marshal_shape cv cm x b h
    exact ⟨props, hb, rfl, hk⟩

/-- Witness for C12: with the sample codecs the sample step and the sample filter marshal to
envelopes of that shape. -/
theorem marshal_envelope_shape_witness :
    (∃ b props, AWSEMRStep.MarshalJSON sampleValueCodec stringCodec sampleStep = .ok b ∧
      b = .obj [("Type", .str "AWS::EMR::Step"), ("Properties", .obj props)] ∧
      props.map Prod.fst = ["ActionOnFailure", "HadoopJarStep", "JobFlowId"]) ∧
    (∃ b props, AWSLogsMetricFilter.MarshalJSON sampleValueCodec stringCodec sampleFilter =
        .ok b ∧
      b = .obj [("Type", .str "AWS::Logs::MetricFilter"), ("Properties", .obj props)] ∧
      props.map Prod.fst = ["FilterPattern", "LogGroupName", "MetricTransformations"]) :=
  have h := @marshal_envelope_shape String String sampleValueCodec stringCodec stringCodec
  ⟨(h.1.2.2 sampleValueCodec_marshalTotal stringCodec_marshalTotal sampleStep).elim
      fun b hb => (h.1.1 sampleStep b hb).elim fun props hp => ⟨b, props, hb, hp.1, hp.2.2⟩,
   (h.2.2.2 sampleValueCodec_marshalTotal stringCodec_marshalTotal sampleFilter).elim
      fun b hb => (h.2.1 sampleFilter b hb).elim fun props hp => ⟨b, props, hb, hp.1, hp.2.2⟩⟩

end Eksctl
